import Mathlib

/-!
# fileuri: conversion between `file:` URLs and filesystem paths

A shallow embedding of `fileuri.go`, `fileuri_other.go` (the `!windows` build) and
`fileuri_windows.go`, together with the parts of Go's `path/filepath` they call
(POSIX `path_unix.go` and Windows `path_windows.go`, as of Go 1.22 and later, where the
implementation lives in `internal/filepathlite`).

A Go `string` is a sequence of bytes; `len` is its byte length and `s[i]` is a byte.
Bytes are natural numbers here; no arithmetic on them can overflow in this code.
A Go result `(string, error)` is a pair whose second component is `none` for `nil`.
-/

namespace Fileuri

/-- A Go string: an immutable sequence of bytes. -/
abbrev GoString := List Nat

/-- UTF-8 encoding of one code point, as the Go compiler stores string literals. -/
def utf8Bytes (c : Char) : List Nat :=
  let n := c.toNat
  if n < 128 then [n]
  else if n < 2048 then [192 + n / 64, 128 + n % 64]
  else if n < 65536 then [224 + n / 4096, 128 + n / 64 % 64, 128 + n % 64]
  else [240 + n / 262144, 128 + n / 4096 % 64, 128 + n / 64 % 64, 128 + n % 64]

/-- The bytes of a string literal. -/
def str (s : String) : GoString := s.toList.flatMap utf8Bytes

/-- Go `strings.Repeat`. -/
def Repeat (s : GoString) : Nat → GoString
  | 0 => []
  | n + 1 => s ++ Repeat s n

/-- Go `strings.HasPrefix`. -/
def HasPrefix (s pfx : GoString) : Bool := pfx.isPrefixOf s

/-- Loop of `strings.IndexByte`: the index of the first `c` at or after position `i`. -/
def indexByteFrom (c : Nat) : GoString → Nat → Int
  | [], _ => -1
  | b :: bs, i => if b = c then (i : Int) else indexByteFrom c bs (i + 1)

/-- Go `strings.IndexByte`: index of the first `c` in `s`, or `-1`. -/
def IndexByte (s : GoString) (c : Nat) : Int := indexByteFrom c s 0

/-- Go `strings.ReplaceAll` for one-byte old and new strings. -/
def replaceByte (s : GoString) (old new : Nat) : GoString :=
  s.map fun b => if b = old then new else b

/-- The byte `'/'`. -/
abbrev slash : Nat := 47
/-- The byte `'\\'`. -/
abbrev backslash : Nat := 92
/-- The byte `':'`. -/
abbrev colon : Nat := 58
/-- The byte `'.'`. -/
abbrev dot : Nat := 46
/-- The byte `'?'`. -/
abbrev question : Nat := 63

/-- The error values declared in `fileuri.go`, `fileuri_other.go` and `fileuri_windows.go`. -/
inductive Error where
  | errNotAbsolute
  | errNonFile
  | errMissingPath
  | errNonLocalHost
  | errVolumeInHost
  | errMissingVolume
  | errMissingShare
  deriving DecidableEq, Repr

open Error

/-- Go `Error()` text of each error value. -/
def Error.text : Error → GoString
  | errNotAbsolute => str "path is not absolute"
  | errNonFile => str "non-file URL"
  | errMissingPath => str "file URL missing path"
  | errNonLocalHost => str "file URL specifies non-local host"
  | errVolumeInHost => str "file URL encodes volume in host field: too few slashes?"
  | errMissingVolume => str "file URL missing drive letter"
  | errMissingShare => str "file URL missing UNC share name"

/-- The fields of `net/url.URL` that the package reads or writes. -/
structure URL where
  Scheme : GoString := []
  Opaque : GoString := []
  Host : GoString := []
  Path : GoString := []
  deriving DecidableEq, Repr

/-! ## `path/filepath`, POSIX build -/

namespace Posix

/-- POSIX `filepath.IsAbs`: `strings.HasPrefix(path, "/")`. -/
def IsAbs (path : GoString) : Bool := HasPrefix path (str "/")

/-- POSIX `volumeNameLen`: always 0. -/
def volumeNameLen (_path : GoString) : Nat := 0

/-- POSIX `filepath.FromSlash`: `Separator` is `'/'`, the path is returned as is. -/
def FromSlash (path : GoString) : GoString := path

/-- POSIX `filepath.ToSlash`: `Separator` is `'/'`, the path is returned as is. -/
def ToSlash (path : GoString) : GoString := path

/-- POSIX `filepath.VolumeName`. -/
def VolumeName (path : GoString) : GoString := FromSlash (path.take (volumeNameLen path))

/-- The function `convertFileURLPath` of `fileuri_other.go`. -/
def convertFileURLPath (host path : GoString) : GoString × Option Error :=
  if host = str "" ∨ host = str "localhost" then
    (FromSlash path, none)
  else
    ([], some errNonLocalHost)

end Posix

/-! ## `path/filepath`, Windows build -/

namespace Windows

/-- Windows `IsPathSeparator`. -/
def IsPathSeparator (c : Nat) : Bool := c = backslash || c = slash

/-- Windows `toUpper` of `path_windows.go`. -/
def toUpper (c : Nat) : Nat := if 97 ≤ c ∧ c ≤ 122 then c - (97 - 65) else c

/-- Windows `pathHasPrefixFold`: `s` begins with `pfx`, ignoring case and treating all
separators alike; and when `s` is longer, the next byte is a separator. -/
def pathHasPrefixFold (s pfx : GoString) : Bool :=
  if s.length < pfx.length then false
  else if !((List.range pfx.length).all fun i =>
      if IsPathSeparator (pfx.getD i 0) then IsPathSeparator (s.getD i 0)
      else toUpper (pfx.getD i 0) = toUpper (s.getD i 0)) then false
  else if s.length > pfx.length ∧ !IsPathSeparator (s.getD pfx.length 0) then false
  else true

/-- Loop of `uncLen` over the bytes from index `i` on, with `count` separators seen. -/
def uncLenLoop : GoString → Nat → Nat → Nat
  | [], i, _ => i
  | c :: cs, i, count =>
    if IsPathSeparator c then
      if count + 1 = 2 then i else uncLenLoop cs (i + 1) (count + 1)
    else uncLenLoop cs (i + 1) count

/-- Windows `uncLen`: the index of the second separator at or after `prefixLen`,
or `len(path)`. -/
def uncLen (path : GoString) (prefixLen : Nat) : Nat :=
  if prefixLen < path.length then uncLenLoop (path.drop prefixLen) prefixLen 0
  else path.length

/-- Windows `cutPath`: slice around the first separator. -/
def cutPath : GoString → GoString × GoString × Bool
  | [] => ([], [], false)
  | c :: cs =>
    if IsPathSeparator c then ([], cs, true)
    else
      let r := cutPath cs
      (c :: r.1, r.2.1, r.2.2)

/-- Windows `volumeNameLen`. -/
def volumeNameLen (path : GoString) : Nat :=
  if path.length ≥ 2 ∧ path.getD 1 0 = colon then 2
  else if path.length = 0 ∨ !IsPathSeparator (path.getD 0 0) then 0
  else if pathHasPrefixFold path (str "\\\\.\\UNC") then
    uncLen path (str "\\\\.\\UNC\\").length
  else if pathHasPrefixFold path (str "\\\\.") || pathHasPrefixFold path (str "\\\\?")
      || pathHasPrefixFold path (str "\\??") then
    if path.length = 3 then 3
    else
      let r := cutPath (path.drop 4)
      if !r.2.2 then path.length
      else path.length - r.2.1.length - 1
  else if path.length ≥ 2 ∧ IsPathSeparator (path.getD 1 0) then uncLen path 2
  else 0

/-- Windows `filepath.IsAbs`. -/
def IsAbs (path : GoString) : Bool :=
  let l := volumeNameLen path
  if l = 0 then false
  else if IsPathSeparator (path.getD 0 0) && IsPathSeparator (path.getD 1 0) then true
  else
    let path := path.drop l
    if path = str "" then false
    else IsPathSeparator (path.getD 0 0)

/-- Windows `filepath.FromSlash`: every `'/'` becomes `'\\'`. -/
def FromSlash (path : GoString) : GoString := replaceByte path slash backslash

/-- Windows `filepath.ToSlash`: every `'\\'` becomes `'/'`. -/
def ToSlash (path : GoString) : GoString := replaceByte path backslash slash

/-- Windows `filepath.VolumeName`. -/
def VolumeName (path : GoString) : GoString := FromSlash (path.take (volumeNameLen path))

/-- The `lazybuf` of `path.go`: a lazily constructed path buffer. `buf` is `none` while
the Go slice is `nil`. -/
structure lazybuf where
  path : GoString
  buf : Option (List Nat)
  w : Nat
  volAndPath : GoString
  volLen : Nat

/-- Method `(*lazybuf).index`. -/
def lazybuf.index (b : lazybuf) (i : Nat) : Nat :=
  match b.buf with
  | some buf => buf.getD i 0
  | none => b.path.getD i 0

/-- Method `(*lazybuf).append`. -/
def lazybuf.append (b : lazybuf) (c : Nat) : lazybuf :=
  match b.buf with
  | none =>
    if b.w < b.path.length ∧ b.path.getD b.w 0 = c then { b with w := b.w + 1 }
    else
      let buf := b.path.take b.w ++ List.replicate (b.path.length - b.w) 0
      { b with buf := some (buf.set b.w c), w := b.w + 1 }
  | some buf => { b with buf := some (buf.set b.w c), w := b.w + 1 }

/-- Method `(*lazybuf).prepend`; only called with a non-nil `buf`. -/
def lazybuf.prepend (b : lazybuf) (pfx : List Nat) : lazybuf :=
  { b with buf := some (pfx ++ b.buf.getD []), w := b.w + pfx.length }

/-- Method `(*lazybuf).string`. -/
def lazybuf.string (b : lazybuf) : GoString :=
  match b.buf with
  | none => b.volAndPath.take (b.volLen + b.w)
  | some buf => b.volAndPath.take b.volLen ++ buf.take b.w

/-- The first loop of Windows `postClean`: a `':'` occurs in `buf` before any separator. -/
def colonBeforeSeparator : List Nat → Bool
  | [] => false
  | c :: cs =>
    if IsPathSeparator c then false
    else if c = colon then true
    else colonBeforeSeparator cs

/-- Windows `postClean`. -/
def postClean (out : lazybuf) : lazybuf :=
  match out.buf with
  | none => out
  | some buf =>
    if out.volLen ≠ 0 then out
    else if colonBeforeSeparator buf then out.prepend [dot, backslash]
    else if buf.length ≥ 3 ∧ IsPathSeparator (buf.getD 0 0) ∧ buf.getD 1 0 = question
        ∧ buf.getD 2 0 = question then out.prepend [backslash, dot]
    else out

/-- The backtracking loop of `Clean` for a `..` element, started after `out.w--`:
decrement `w` while `w > dotdot` and the byte at `w` is not a separator. -/
def backtrack (out : lazybuf) (dotdot : Nat) : Nat → Nat
  | 0 => 0
  | w + 1 =>
    if w + 1 > dotdot ∧ !IsPathSeparator (out.index (w + 1)) then backtrack out dotdot w
    else w + 1

/-- The copy loop of `Clean` for a real path element: `rest` is `path[r:]`. -/
def copyElement : GoString → Nat → lazybuf → Nat × lazybuf
  | [], r, out => (r, out)
  | c :: cs, r, out =>
    if IsPathSeparator c then (r, out)
    else copyElement cs (r + 1) (out.append c)

/-- One iteration of the main loop of `Clean`, for `r < n`: the new `r`, `dotdot`, `out`. -/
def cleanStep (path : GoString) (n : Nat) (rooted : Bool) (r dotdot : Nat) (out : lazybuf) :
    Nat × Nat × lazybuf :=
  if IsPathSeparator (path.getD r 0) then (r + 1, dotdot, out)
  else if path.getD r 0 = dot ∧ (r + 1 = n ∨ IsPathSeparator (path.getD (r + 1) 0)) then
    (r + 1, dotdot, out)
  else if path.getD r 0 = dot ∧ path.getD (r + 1) 0 = dot
      ∧ (r + 2 = n ∨ IsPathSeparator (path.getD (r + 2) 0)) then
    if out.w > dotdot then
      (r + 2, dotdot, { out with w := backtrack out dotdot (out.w - 1) })
    else if !rooted then
      let out := if out.w > 0 then out.append backslash else out
      let out := (out.append dot).append dot
      (r + 2, out.w, out)
    else (r + 2, dotdot, out)
  else
    let out := if rooted ∧ out.w ≠ 1 ∨ !rooted ∧ out.w ≠ 0 then out.append backslash else out
    let c := copyElement (path.drop r) r out
    (c.1, dotdot, c.2)

/-- The main loop `for r < n` of `Clean`. Every iteration increases `r`, so `n - r`
iterations of `fuel` are enough. -/
def cleanLoop (path : GoString) (n : Nat) (rooted : Bool) :
    Nat → Nat → Nat → lazybuf → lazybuf
  | 0, _, _, out => out
  | fuel + 1, r, dotdot, out =>
    if r < n then
      let s := cleanStep path n rooted r dotdot out
      cleanLoop path n rooted fuel s.1 s.2.1 s.2.2
    else out

/-- Windows `filepath.Clean`. -/
def Clean (path : GoString) : GoString :=
  let originalPath := path
  let volLen := volumeNameLen path
  let path := path.drop volLen
  if path = str "" then
    if volLen > 1 ∧ IsPathSeparator (originalPath.getD 0 0)
        ∧ IsPathSeparator (originalPath.getD 1 0) then FromSlash originalPath
    else originalPath ++ str "."
  else
    let rooted := IsPathSeparator (path.getD 0 0)
    let n := path.length
    let out : lazybuf :=
      { path := path, buf := none, w := 0, volAndPath := originalPath, volLen := volLen }
    let out := if rooted then out.append backslash else out
    let r := if rooted then 1 else 0
    let out := cleanLoop path n rooted n r r out
    let out := if out.w = 0 then out.append dot else out
    let out := postClean out
    FromSlash out.string

/-- The constant `maxPath` of `fileuri_windows.go`. -/
def maxPath : Nat := 260

/-- The function `convertFileURLPath` of `fileuri_windows.go`. -/
def convertFileURLPath (host path : GoString) : GoString × Option Error :=
  if path = str "" ∨ path.getD 0 0 ≠ slash then ([], some errNotAbsolute)
  else
    let path := FromSlash path
    if host ≠ str "" ∧ host ≠ str "localhost" then
      if VolumeName host ≠ str "" then ([], some errVolumeInHost)
      else if path = str "\\" then ([], some errMissingShare)
      else
        let path := str "\\\\" ++ host ++ path
        let path :=
          if path.length ≥ maxPath then str "\\\\?\\UNC" ++ Clean (path.drop 1) else path
        (path, none)
    else
      let vol := VolumeName (path.drop 1)
      if vol = str "" ∨ HasPrefix vol (str "\\\\") then ([], some errMissingVolume)
      else
        let path := path.drop 1
        let path := if path.length ≥ maxPath then str "\\\\?\\" ++ Clean path else path
        (path, none)

end Windows

/-! ## The package -/

/-- The build-dependent parts: `path/filepath` and `convertFileURLPath`. -/
structure Platform where
  IsAbs : GoString → Bool
  VolumeName : GoString → GoString
  FromSlash : GoString → GoString
  ToSlash : GoString → GoString
  convertFileURLPath : GoString → GoString → GoString × Option Error

/-- The closure `checkAbs` of `ToFilePath`. -/
def checkAbs (pf : Platform) (path : GoString) : GoString × Option Error :=
  if !pf.IsAbs path then ([], some errNotAbsolute)
  else (path, none)

/-- The function `ToFilePath` of `fileuri.go`. -/
def ToFilePath (pf : Platform) (u : URL) : GoString × Option Error :=
  if u.Scheme ≠ str "file" then ([], some errNonFile)
  else if u.Path = str "" then
    if u.Host ≠ str "" ∨ u.Opaque = str "" then ([], some errMissingPath)
    else checkAbs pf (pf.FromSlash u.Opaque)
  else
    let r := pf.convertFileURLPath u.Host u.Path
    if r.2 ≠ none then (r.1, r.2)
    else checkAbs pf r.1

/-- The function `FromFilePath` of `fileuri.go`. -/
def FromFilePath (pf : Platform) (path : GoString) : Option URL × Option Error :=
  if !pf.IsAbs path then (none, some errNotAbsolute)
  else
    let vol := pf.VolumeName path
    if vol ≠ str "" then
      if HasPrefix vol (str "\\\\") then
        let path := pf.ToSlash (path.drop 2)
        let i := IndexByte path slash
        if i < 0 then
          (some { Scheme := str "file", Host := path, Path := str "/" }, none)
        else
          (some { Scheme := str "file", Host := path.take i.toNat,
                  Path := pf.ToSlash (path.drop i.toNat) }, none)
      else
        (some { Scheme := str "file", Path := str "/" ++ pf.ToSlash path }, none)
    else
      (some { Scheme := str "file", Path := pf.ToSlash path }, none)

/-- The `!windows` build. -/
def posix : Platform where
  IsAbs := Posix.IsAbs
  VolumeName := Posix.VolumeName
  FromSlash := Posix.FromSlash
  ToSlash := Posix.ToSlash
  convertFileURLPath := Posix.convertFileURLPath

/-- The `windows` build. -/
def windows : Platform where
  IsAbs := Windows.IsAbs
  VolumeName := Windows.VolumeName
  FromSlash := Windows.FromSlash
  ToSlash := Windows.ToSlash
  convertFileURLPath := Windows.convertFileURLPath

/-! ## Notions used to state properties -/

/-- Number of Unicode code points of a UTF-8 string (Go `utf8.RuneCountInString` on
valid UTF-8): the bytes that are not continuation bytes `10xxxxxx`. -/
def codePoints (s : GoString) : Nat := (s.filter fun b => b / 64 ≠ 2).length

/-- Loop of `segments`: `cur` is the segment read so far. -/
def segmentsFrom (isSep : Nat → Bool) : GoString → GoString → List GoString
  | cur, [] => if cur = [] then [] else [cur]
  | cur, c :: cs =>
    if isSep c then
      if cur = [] then segmentsFrom isSep [] cs else cur :: segmentsFrom isSep [] cs
    else segmentsFrom isSep (cur ++ [c]) cs

/-- The sequence of non-empty segments of a path: the maximal runs of bytes that are
not separators. -/
def segments (isSep : Nat → Bool) (s : GoString) : List GoString := segmentsFrom isSep [] s

/-- The separator of URL paths: `'/'` only. -/
def isSlash (c : Nat) : Bool := c = slash

/-- The bytes a `lazybuf` holds: the first `w` bytes of `buf`, or of `path` while `buf`
is nil. -/
def Windows.lazybuf.contents (b : Windows.lazybuf) : GoString :=
  match b.buf with
  | none => b.path.take b.w
  | some buf => buf.take b.w

/-- The bounds a `lazybuf` keeps: `buf`, once made, is as long as `path`, and `w` does
not pass the end. -/
def Windows.lazybuf.inBounds (b : Windows.lazybuf) : Prop :=
  b.w ≤ b.path.length ∧ ∀ buf, b.buf = some buf → buf.length = b.path.length

/-! ## Literals -/

theorem str_empty : str "" = [] := by decide

theorem str_slash : str "/" = [slash] := by decide

theorem str_backslash : str "\\" = [backslash] := by decide

theorem str_backslash2 : str "\\\\" = [backslash, backslash] := by decide

theorem str_file_ne_empty : str "file" ≠ [] := by decide

/-! ## The model of `path/filepath` -/

/-- Rows of the Windows tables `volumenametests`, `winisabstests` and `wincleantests`
of Go's `path/filepath` tests, evaluated on the model. -/
theorem windows_filepath_tables :
    Windows.VolumeName (str "c:/foo/bar") = str "c:"
      ∧ Windows.VolumeName (str "2:") = str "2:"
      ∧ Windows.VolumeName (str "\\\\\\host\\share") = str "\\\\\\host"
      ∧ Windows.VolumeName (str "//host") = str "\\\\host"
      ∧ Windows.VolumeName (str "//host/share/foo") = str "\\\\host\\share"
      ∧ Windows.VolumeName (str "//./C:/a/b/c") = str "\\\\.\\C:"
      ∧ Windows.VolumeName (str "//./UNC/host/share/a/b/c") = str "\\\\.\\UNC\\host\\share"
      ∧ Windows.VolumeName (str "//./UNC") = str "\\\\.\\UNC"
      ∧ Windows.VolumeName (str "\\\\?\\x") = str "\\\\?\\x"
      ∧ Windows.VolumeName (str "/??/NUL") = str "\\??\\NUL"
      ∧ Windows.IsAbs (str "C:\\") = true
      ∧ Windows.IsAbs (str "c:") = false
      ∧ Windows.IsAbs (str "\\Windows") = false
      ∧ Windows.IsAbs (str "c:a\\b") = false
      ∧ Windows.IsAbs (str "c:/a/b") = true
      ∧ Windows.IsAbs (str "\\\\host\\share") = true
      ∧ Windows.IsAbs (str "\\??\\a\\b\\c") = true
      ∧ Windows.Clean (str "c:") = str "c:."
      ∧ Windows.Clean (str "c:abc\\..\\..\\.\\.\\..\\def") = str "c:..\\..\\def"
      ∧ Windows.Clean (str "c:\\b:\\..\\..\\..\\d") = str "c:\\d"
      ∧ Windows.Clean (str "\\\\i\\..\\c$") = str "\\\\i\\..\\c$"
      ∧ Windows.Clean (str "//host/share/foo/../baz") = str "\\\\host\\share\\baz"
      ∧ Windows.Clean (str "\\\\.\\C:\\\\\\\\a") = str "\\\\.\\C:\\a"
      ∧ Windows.Clean (str "//abc//") = str "\\\\abc\\\\"
      ∧ Windows.Clean (str "\\\\?\\C:\\") = str "\\\\?\\C:\\"
      ∧ Windows.Clean (str "a/../c:/a") = str ".\\c:\\a"
      ∧ Windows.Clean (str "a/../../c:") = str "..\\c:"
      ∧ Windows.Clean (str "foo:bar") = str "foo:bar"
      ∧ Windows.Clean (str "/a/../??/a") = str "\\.\\??\\a"
      ∧ Windows.Clean (str "abc/def/../../../ghi/jkl/../../../mno") = str "..\\..\\mno"
      ∧ Windows.Clean (str "") = str "." := by
  decide

/-- The copy loop of `Clean` never moves `r` backwards. -/
theorem copyElement_ge (l : GoString) (r : Nat) (out : Windows.lazybuf) :
    r ≤ (Windows.copyElement l r out).1 := by
  induction l generalizing r out with
  | nil => simp [Windows.copyElement]
  | cons c cs ih =>
    simp only [Windows.copyElement]
    split_ifs
    · exact le_refl r
    · exact le_trans (Nat.le_succ r) (ih (r + 1) (out.append c))

/-- Every iteration of the main loop of `Clean` increases `r`. -/
theorem cleanStep_lt (path : GoString) (n : Nat) (rooted : Bool) (r dotdot : Nat)
    (out : Windows.lazybuf) (hr : r < path.length) :
    r < (Windows.cleanStep path n rooted r dotdot out).1 := by
  have hcopy : ¬ Windows.IsPathSeparator (path.getD r 0) = true →
      ∀ o, r < (Windows.copyElement (path.drop r) r o).1 := by
    intro h1 o
    have hd : path.drop r = path.getD r 0 :: path.drop (r + 1) := by
      rw [List.getD_eq_getElem _ _ hr]
      exact List.drop_eq_getElem_cons hr
    rw [hd]
    simp only [Windows.copyElement, h1, Bool.false_eq_true, if_false]
    exact lt_of_lt_of_le (Nat.lt_succ_self r) (copyElement_ge _ _ _)
  unfold Windows.cleanStep
  dsimp only
  split_ifs with h1 <;> first
    | exact Nat.lt_succ_self r
    | exact Nat.lt_succ_of_lt (Nat.lt_succ_self r)
    | exact hcopy h1 _

/-- The main loop of `Clean` ends because `r` reaches `n`, not because the fuel runs
out: with `n - r` iterations allowed, more fuel does not change the result. -/
theorem cleanLoop_fuel (path : GoString) (rooted : Bool) (fuel extra r dotdot : Nat)
    (out : Windows.lazybuf) (h : path.length - r ≤ fuel) :
    Windows.cleanLoop path path.length rooted (fuel + extra) r dotdot out
      = Windows.cleanLoop path path.length rooted fuel r dotdot out := by
  induction fuel generalizing r dotdot out with
  | zero =>
    have hr : ¬ r < path.length := by omega
    cases extra with
    | zero => rfl
    | succ e => simp [Windows.cleanLoop, hr]
  | succ f ih =>
    rw [Nat.add_right_comm]
    simp only [Windows.cleanLoop]
    split_ifs with hr
    · have := cleanStep_lt path path.length rooted r dotdot out hr
      exact ih _ _ _ (by omega)
    · rfl

/-! ## Both builds: scheme, missing path, opaque form -/

/-- C1 (POSIX build): for every string `p` that begins with `'/'`, `FromFilePath p`
succeeds, and `ToFilePath` of the URL it returns succeeds and returns exactly `p`. -/
theorem posix_roundtrip (p : GoString) (h : p.head? = some slash) :
    ∃ u, FromFilePath posix p = (some u, none) ∧ ToFilePath posix u = (p, none) := by
  obtain ⟨q, rfl⟩ : ∃ q, p = slash :: q := by
    cases p with
    | nil => simp at h
    | cons a q => exact ⟨q, by simp at h; rw [h]⟩
  refine ⟨{ Scheme := str "file", Path := slash :: q }, ?_, ?_⟩
  · simp [FromFilePath, posix, Posix.IsAbs, Posix.VolumeName, Posix.volumeNameLen,
      Posix.FromSlash, Posix.ToSlash, HasPrefix, str_slash, str_empty]
  · simp [ToFilePath, checkAbs, posix, Posix.IsAbs, Posix.convertFileURLPath,
      Posix.FromSlash, HasPrefix, str_slash, str_empty]

/-- The URL `file:///path/to/file` round-trips on the POSIX build. -/
theorem posix_roundtrip_witness :
    ∃ u, FromFilePath posix (str "/path/to/file") = (some u, none)
      ∧ ToFilePath posix u = (str "/path/to/file", none) :=
  posix_roundtrip (str "/path/to/file") (by decide)

/-- C3 (both builds): for every URL whose scheme is not exactly `file`, whatever its
host, path and opaque part, `ToFilePath` returns the empty path and the error
`errNonFile`, whose text is `non-file URL`. -/
theorem toFilePath_nonFile (u : URL) (h : u.Scheme ≠ str "file") :
    ToFilePath posix u = ([], some errNonFile)
      ∧ ToFilePath windows u = ([], some errNonFile)
      ∧ errNonFile.text = str "non-file URL" := by
  simp [ToFilePath, h, Error.text]

/-- The URL `ftp:///path/to/file` is rejected with `errNonFile` on both builds. -/
theorem toFilePath_nonFile_witness :
    ToFilePath posix { Scheme := str "ftp", Path := str "/path/to/file" }
        = ([], some errNonFile)
      ∧ ToFilePath windows { Scheme := str "ftp", Path := str "/path/to/file" }
        = ([], some errNonFile)
      ∧ errNonFile.text = str "non-file URL" :=
  toFilePath_nonFile { Scheme := str "ftp", Path := str "/path/to/file" } (by decide)

/-- Function `FromFilePath` on any build: an error exactly for the non-absolute paths. -/
theorem fromFilePath_error_iff (pf : Platform) (p : GoString) :
    ((FromFilePath pf p).2 ≠ none ↔ pf.IsAbs p = false)
      ∧ (pf.IsAbs p = false → FromFilePath pf p = (none, some errNotAbsolute))
      ∧ (pf.IsAbs p = true → ∃ u, FromFilePath pf p = (some u, none)) := by
  cases hAbs : pf.IsAbs p
  · simp [FromFilePath, hAbs]
  · simp only [FromFilePath, hAbs, Bool.not_true, Bool.false_eq_true, if_false]
    split_ifs <;> simp

/-- C4 (both builds): for every string `p`, `FromFilePath p` returns an error if and
only if `filepath.IsAbs p` is false; the error is then `errNotAbsolute` and the URL is
nil, and for every absolute `p` it returns a URL with no error. -/
theorem fromFilePath_notAbsolute (p : GoString) :
    (((FromFilePath posix p).2 ≠ none ↔ Posix.IsAbs p = false)
      ∧ (Posix.IsAbs p = false → FromFilePath posix p = (none, some errNotAbsolute))
      ∧ (Posix.IsAbs p = true → ∃ u, FromFilePath posix p = (some u, none)))
    ∧ (((FromFilePath windows p).2 ≠ none ↔ Windows.IsAbs p = false)
      ∧ (Windows.IsAbs p = false → FromFilePath windows p = (none, some errNotAbsolute))
      ∧ (Windows.IsAbs p = true → ∃ u, FromFilePath windows p = (some u, none))) :=
  ⟨fromFilePath_error_iff posix p, fromFilePath_error_iff windows p⟩

/-- A relative path is rejected and an absolute one accepted, on both builds. -/
theorem fromFilePath_notAbsolute_witness :
    FromFilePath posix (str "relative.txt") = (none, some errNotAbsolute)
      ∧ FromFilePath windows (str "relative.txt") = (none, some errNotAbsolute)
      ∧ (∃ u, FromFilePath posix (str "/path/to/file") = (some u, none))
      ∧ (∃ u, FromFilePath windows (str "C:\\path\\to\\file") = (some u, none)) :=
  ⟨(fromFilePath_notAbsolute (str "relative.txt")).1.2.1 (by decide),
   (fromFilePath_notAbsolute (str "relative.txt")).2.2.1 (by decide),
   (fromFilePath_notAbsolute (str "/path/to/file")).1.2.2 (by decide),
   (fromFilePath_notAbsolute (str "C:\\path\\to\\file")).2.2.2 (by decide)⟩

/-- Closure `checkAbs`: an absolute path with no error, or no path and `errNotAbsolute`. -/
theorem checkAbs_eq (pf : Platform) (p : GoString) :
    checkAbs pf p = if pf.IsAbs p = true then (p, none) else ([], some errNotAbsolute) := by
  cases h : pf.IsAbs p <;> simp [checkAbs, h]

/-- POSIX `convertFileURLPath` returns no path with its only error. -/
theorem posix_convertFileURLPath_error (host path : GoString) (e : Error)
    (h : (Posix.convertFileURLPath host path).2 = some e) :
    (Posix.convertFileURLPath host path).1 = [] ∧ e ∈ [errNonLocalHost] := by
  unfold Posix.convertFileURLPath at h ⊢
  split_ifs at h ⊢
  simp at h ⊢
  exact h.symm

/-- Windows `convertFileURLPath` returns no path with any of its errors. -/
theorem windows_convertFileURLPath_error (host path : GoString) (e : Error)
    (h : (Windows.convertFileURLPath host path).2 = some e) :
    (Windows.convertFileURLPath host path).1 = []
      ∧ e ∈ [errNotAbsolute, errVolumeInHost, errMissingShare, errMissingVolume] := by
  unfold Windows.convertFileURLPath at h ⊢
  dsimp only at h ⊢
  split_ifs at h ⊢ <;> simp at h ⊢ <;> subst h <;> simp

/-- Function `ToFilePath` on any build whose `convertFileURLPath` returns no path with
an error: the result is an absolute path and no error, or no path and an error. -/
theorem toFilePath_shape (pf : Platform) (allowed : List Error)
    (hconv : ∀ host path e, (pf.convertFileURLPath host path).2 = some e →
      (pf.convertFileURLPath host path).1 = [] ∧ e ∈ allowed) (u : URL) :
    (∃ p, ToFilePath pf u = (p, none) ∧ pf.IsAbs p = true)
      ∨ (∃ e, ToFilePath pf u = ([], some e)
          ∧ e ∈ errNonFile :: errMissingPath :: errNotAbsolute :: allowed) := by
  unfold ToFilePath
  by_cases hs : u.Scheme ≠ str "file"
  · exact Or.inr ⟨errNonFile, by simp [hs], by simp⟩
  rw [if_neg hs]
  by_cases hp : u.Path = str ""
  · rw [if_pos hp]
    by_cases hh : u.Host ≠ str "" ∨ u.Opaque = str ""
    · exact Or.inr ⟨errMissingPath, by rw [if_pos hh], by simp⟩
    · rw [if_neg hh, checkAbs_eq]
      by_cases ha : pf.IsAbs (pf.FromSlash u.Opaque) = true
      · exact Or.inl ⟨_, by rw [if_pos ha], ha⟩
      · exact Or.inr ⟨errNotAbsolute, by rw [if_neg ha], by simp⟩
  · rw [if_neg hp]
    cases hr : (pf.convertFileURLPath u.Host u.Path).2 with
    | some e =>
      obtain ⟨h1, h2⟩ := hconv _ _ _ hr
      refine Or.inr ⟨e, ?_, by simp [h2]⟩
      simp [hr, h1]
    | none =>
      simp only [hr, ne_eq, not_true_eq_false, if_false, checkAbs_eq]
      by_cases ha : pf.IsAbs (pf.convertFileURLPath u.Host u.Path).1 = true
      · exact Or.inl ⟨_, by rw [if_pos ha], ha⟩
      · exact Or.inr ⟨errNotAbsolute, by rw [if_neg ha], by simp⟩

/-- C5 (both builds): for every URL `u`, `ToFilePath u` returns either a path `p` with
no error, where `p` is absolute, or the empty string with an error, which is one of
`errNonFile`, `errMissingPath`, `errNotAbsolute`, and `errNonLocalHost` on POSIX,
`errVolumeInHost`, `errMissingShare`, `errMissingVolume` on Windows. It never returns a
non-absolute path without an error, nor a non-empty path together with an error. -/
theorem toFilePath_path_or_error (u : URL) :
    ((∃ p, ToFilePath posix u = (p, none) ∧ Posix.IsAbs p = true)
      ∨ (∃ e, ToFilePath posix u = ([], some e)
          ∧ e ∈ [errNonFile, errMissingPath, errNotAbsolute, errNonLocalHost]))
    ∧ ((∃ p, ToFilePath windows u = (p, none) ∧ Windows.IsAbs p = true)
      ∨ (∃ e, ToFilePath windows u = ([], some e)
          ∧ e ∈ [errNonFile, errMissingPath, errNotAbsolute,
                 errVolumeInHost, errMissingShare, errMissingVolume]))
    ∧ (∀ p, ToFilePath posix u = (p, none) → Posix.IsAbs p = true)
    ∧ (∀ p, ToFilePath windows u = (p, none) → Windows.IsAbs p = true)
    ∧ (∀ p e, ToFilePath posix u = (p, some e) → p = [])
    ∧ (∀ p e, ToFilePath windows u = (p, some e) → p = []) := by
  have hP := toFilePath_shape posix [errNonLocalHost] posix_convertFileURLPath_error u
  have hW : (∃ p, ToFilePath windows u = (p, none) ∧ Windows.IsAbs p = true)
      ∨ (∃ e, ToFilePath windows u = ([], some e)
          ∧ e ∈ [errNonFile, errMissingPath, errNotAbsolute,
                 errVolumeInHost, errMissingShare, errMissingVolume]) := by
    rcases toFilePath_shape windows _ windows_convertFileURLPath_error u with h | ⟨e, he, hm⟩
    · exact Or.inl h
    · refine Or.inr ⟨e, he, ?_⟩
      simp only [List.mem_cons, List.mem_singleton, List.not_mem_nil, or_false] at hm ⊢
      tauto
  refine ⟨hP, hW, ?_, ?_, ?_, ?_⟩
  · intro p hp
    rcases hP with ⟨q, hq, ha⟩ | ⟨e, he, _⟩
    · rw [hp] at hq; cases hq; exact ha
    · rw [hp] at he; cases he
  · intro p hp
    rcases hW with ⟨q, hq, ha⟩ | ⟨e, he, _⟩
    · rw [hp] at hq; cases hq; exact ha
    · rw [hp] at he; cases he
  · intro p e hp
    rcases hP with ⟨q, hq, _⟩ | ⟨e, he, _⟩
    · rw [hp] at hq; cases hq
    · rw [hp] at he; cases he; rfl
  · intro p e hp
    rcases hW with ⟨q, hq, _⟩ | ⟨e, he, _⟩
    · rw [hp] at hq; cases hq
    · rw [hp] at he; cases he; rfl

/-- C6 (both builds): for every URL with scheme `file` and empty path, if the host is
non-empty or the opaque part is empty, `ToFilePath` returns `errMissingPath`, whose
text is `file URL missing path`, whatever the host is (also `localhost`). -/
theorem toFilePath_missingPath (u : URL) (hs : u.Scheme = str "file")
    (hp : u.Path = str "") (h : u.Host ≠ str "" ∨ u.Opaque = str "") :
    ToFilePath posix u = ([], some errMissingPath)
      ∧ ToFilePath windows u = ([], some errMissingPath)
      ∧ errMissingPath.text = str "file URL missing path" := by
  simp [ToFilePath, hs, hp, h, Error.text]

/-- The URLs `file://localhost`, `file://` and `file:` have no path, on both builds. -/
theorem toFilePath_missingPath_witness :
    (ToFilePath posix { Scheme := str "file", Host := str "localhost" }
        = ([], some errMissingPath)
      ∧ ToFilePath windows { Scheme := str "file", Host := str "localhost" }
        = ([], some errMissingPath)
      ∧ errMissingPath.text = str "file URL missing path")
    ∧ ToFilePath posix { Scheme := str "file" } = ([], some errMissingPath)
    ∧ ToFilePath windows { Scheme := str "file" } = ([], some errMissingPath) :=
  ⟨toFilePath_missingPath { Scheme := str "file", Host := str "localhost" }
      (by decide) (by decide) (by decide),
   (toFilePath_missingPath { Scheme := str "file" } (by decide) (by decide) (by decide)).1,
   (toFilePath_missingPath { Scheme := str "file" } (by decide) (by decide) (by decide)).2.1⟩

/-- Opaque form on any build: the opaque part, with native separators, checked for
absoluteness. -/
theorem toFilePath_opaqueForm_any (pf : Platform) (u : URL) (hs : u.Scheme = str "file")
    (hp : u.Path = str "") (hh : u.Host = str "") (ho : u.Opaque ≠ str "") :
    ToFilePath pf u =
      if pf.IsAbs (pf.FromSlash u.Opaque) = true then (pf.FromSlash u.Opaque, none)
      else ([], some errNotAbsolute) := by
  simp [ToFilePath, hs, hp, hh, ho, checkAbs_eq]

/-- C7 (both builds): for every URL with scheme `file`, empty path, empty host and
non-empty opaque part, `ToFilePath` returns `filepath.FromSlash` of the opaque part with
no error when that string is absolute, and `errNotAbsolute` otherwise. In particular on
POSIX every opaque string that does not start with `'/'` fails with `errNotAbsolute`.
(On Windows `file:c:/path/to/file` yields `c:\path\to\file`: see the witness.) -/
theorem toFilePath_opaqueForm (u : URL) (hs : u.Scheme = str "file")
    (hp : u.Path = str "") (hh : u.Host = str "") (ho : u.Opaque ≠ str "") :
    (ToFilePath posix u =
        if Posix.IsAbs (Posix.FromSlash u.Opaque) = true then (Posix.FromSlash u.Opaque, none)
        else ([], some errNotAbsolute))
    ∧ (ToFilePath windows u =
        if Windows.IsAbs (Windows.FromSlash u.Opaque) = true then
          (Windows.FromSlash u.Opaque, none)
        else ([], some errNotAbsolute))
    ∧ (u.Opaque.head? ≠ some slash → ToFilePath posix u = ([], some errNotAbsolute)) := by
  refine ⟨toFilePath_opaqueForm_any posix u hs hp hh ho,
    toFilePath_opaqueForm_any windows u hs hp hh ho, ?_⟩
  intro hne
  rw [toFilePath_opaqueForm_any posix u hs hp hh ho, if_neg]
  intro habs
  apply hne
  cases hO : u.Opaque with
  | nil => exact absurd hO (by simpa [str_empty] using ho)
  | cons a q =>
    simp [posix, Posix.IsAbs, Posix.FromSlash, HasPrefix, str_slash, hO] at habs
    simp [habs]

/-- The URL `file:c:/path/to/file` yields `c:\path\to\file` on Windows, and
`file:relative.txt` fails with `errNotAbsolute` on both builds. -/
theorem toFilePath_opaqueForm_witness :
    ToFilePath windows { Scheme := str "file", Opaque := str "c:/path/to/file" }
        = (str "c:\\path\\to\\file", none)
      ∧ ToFilePath posix { Scheme := str "file", Opaque := str "relative.txt" }
        = ([], some errNotAbsolute)
      ∧ ToFilePath windows { Scheme := str "file", Opaque := str "relative.txt" }
        = ([], some errNotAbsolute) :=
  ⟨(toFilePath_opaqueForm { Scheme := str "file", Opaque := str "c:/path/to/file" }
      (by decide) (by decide) (by decide) (by decide)).2.1.trans (by decide),
   (toFilePath_opaqueForm { Scheme := str "file", Opaque := str "relative.txt" }
      (by decide) (by decide) (by decide) (by decide)).2.2 (by decide),
   (toFilePath_opaqueForm { Scheme := str "file", Opaque := str "relative.txt" }
      (by decide) (by decide) (by decide) (by decide)).2.1.trans (by decide)⟩

/-- C8 (POSIX build): for every URL with scheme `file` and non-empty path, `ToFilePath`
returns `errNonLocalHost` if and only if the host is neither empty nor exactly
`localhost`, whatever the path is; when the host is empty or `localhost` and the path
starts with `'/'`, it returns the path unchanged with no error. -/
theorem posix_nonLocalHost (u : URL) (hs : u.Scheme = str "file") (hp : u.Path ≠ str "") :
    (ToFilePath posix u = ([], some errNonLocalHost)
        ↔ (u.Host ≠ str "" ∧ u.Host ≠ str "localhost"))
    ∧ ((ToFilePath posix u).2 = some errNonLocalHost
        ↔ (u.Host ≠ str "" ∧ u.Host ≠ str "localhost"))
    ∧ ((u.Host = str "" ∨ u.Host = str "localhost") → u.Path.head? = some slash →
        ToFilePath posix u = (u.Path, none)) := by
  by_cases hh : u.Host = str "" ∨ u.Host = str "localhost"
  · have hconv : Posix.convertFileURLPath u.Host u.Path = (u.Path, none) := by
      simp [Posix.convertFileURLPath, hh, Posix.FromSlash]
    have hT : ToFilePath posix u = checkAbs posix u.Path := by
      simp [ToFilePath, hs, hp, posix, hconv]
    have hne : ¬ (u.Host ≠ str "" ∧ u.Host ≠ str "localhost") := by tauto
    rw [hT, checkAbs_eq]
    refine ⟨?_, ?_, ?_⟩
    · simp only [hne, iff_false]
      split_ifs <;> simp
    · simp only [hne, iff_false]
      split_ifs <;> simp
    · intro _ hhead
      rw [if_pos]
      cases hP : u.Path with
      | nil => simp [hP] at hhead
      | cons a q =>
        simp [hP] at hhead
        simp [posix, Posix.IsAbs, HasPrefix, str_slash, hhead]
  · have hconv : Posix.convertFileURLPath u.Host u.Path = ([], some errNonLocalHost) := by
      simp [Posix.convertFileURLPath, hh]
    have hT : ToFilePath posix u = ([], some errNonLocalHost) := by
      simp [ToFilePath, hs, hp, posix, hconv]
    have hyes : u.Host ≠ str "" ∧ u.Host ≠ str "localhost" := by tauto
    rw [hT]
    exact ⟨by simp [hyes], by simp [hyes], fun h => absurd h hh⟩

/-- The URL `file://server/share/file.txt` fails with `errNonLocalHost` and
`file://localhost/path/to/file` yields `/path/to/file`, on the POSIX build. -/
theorem posix_nonLocalHost_witness :
    ToFilePath posix { Scheme := str "file", Host := str "server",
                       Path := str "/share/file.txt" } = ([], some errNonLocalHost)
      ∧ ToFilePath posix { Scheme := str "file", Host := str "localhost",
                           Path := str "/path/to/file" } = (str "/path/to/file", none) :=
  ⟨(posix_nonLocalHost
      { Scheme := str "file", Host := str "server", Path := str "/share/file.txt" }
      (by decide) (by decide)).1.2 (by decide),
   (posix_nonLocalHost
      { Scheme := str "file", Host := str "localhost", Path := str "/path/to/file" }
      (by decide) (by decide)).2.2 (by decide) (by decide)⟩

/-! ## Windows build: the two branches of `convertFileURLPath` -/

/-- A path that starts with `'/'` is not empty and has `'/'` as byte 0. -/
theorem head_slash (path : GoString) (h : path.head? = some slash) :
    ∃ q, path = slash :: q := by
  cases path with
  | nil => simp at h
  | cons a q => exact ⟨q, by simp at h; rw [h]⟩

/-- Windows `FromSlash` of `'/'` followed by `q`. -/
theorem windows_fromSlash_cons_slash (q : GoString) :
    Windows.FromSlash (slash :: q) = backslash :: Windows.FromSlash q := by
  simp [Windows.FromSlash, replaceByte]

/-- UNC branch of Windows `convertFileURLPath`. -/
theorem windows_convert_unc (host path : GoString)
    (h1 : host ≠ str "") (h2 : host ≠ str "localhost")
    (h3 : Windows.VolumeName host = str "")
    (h4 : path.head? = some slash) (h5 : path ≠ str "/") :
    Windows.convertFileURLPath host path =
        (if (str "\\\\" ++ host ++ Windows.FromSlash path).length < 260 then
           str "\\\\" ++ host ++ Windows.FromSlash path
         else
           str "\\\\?\\UNC"
             ++ Windows.Clean ((str "\\\\" ++ host ++ Windows.FromSlash path).drop 1),
         none) := by
  obtain ⟨q, rfl⟩ := head_slash path h4
  have hq : q ≠ [] := by
    intro hq
    exact h5 (by rw [hq, str_slash])
  have hshare : Windows.FromSlash (slash :: q) ≠ str "\\" := by
    rw [windows_fromSlash_cons_slash, str_backslash]
    intro h
    have hlen := congrArg List.length h
    cases q with
    | nil => exact hq rfl
    | cons a q => simp [Windows.FromSlash, replaceByte] at hlen
  have hne : ¬ (slash :: q = str "" ∨ (slash :: q).getD 0 0 ≠ slash) := by
    simp [str_empty]
  unfold Windows.convertFileURLPath
  rw [if_neg hne]
  dsimp only
  rw [if_pos ⟨h1, h2⟩, if_neg (not_not.mpr h3), if_neg hshare]
  by_cases hlen : (str "\\\\" ++ host ++ Windows.FromSlash (slash :: q)).length < 260
  · rw [if_pos hlen, if_neg (by simpa [Windows.maxPath] using hlen)]
  · rw [if_neg hlen, if_pos (by simpa [Windows.maxPath] using hlen)]

/-- C9 (Windows build, UNC branch): for every host that is neither empty nor
`localhost` and for which `filepath.VolumeName host` is empty, and every path that
starts with `'/'` and is not exactly `/`, `convertFileURLPath host path` returns no
error. With `unc` the string made of two backslashes, then `host`, then
`FromSlash path`, the result is `unc` itself when the byte length of `unc` is less
than 260, and otherwise the 7-byte prefix `\\?\UNC` followed by `filepath.Clean` of
`unc` with its first backslash removed. -/
theorem windows_unc_branch (host path : GoString)
    (h1 : host ≠ str "") (h2 : host ≠ str "localhost")
    (h3 : Windows.VolumeName host = str "")
    (h4 : path.head? = some slash) (h5 : path ≠ str "/") :
    Windows.convertFileURLPath host path =
        (if (str "\\\\" ++ host ++ Windows.FromSlash path).length < 260 then
           str "\\\\" ++ host ++ Windows.FromSlash path
         else
           str "\\\\?\\UNC"
             ++ Windows.Clean ((str "\\\\" ++ host ++ Windows.FromSlash path).drop 1),
         none)
      ∧ (str "\\\\?\\UNC").length = 7 :=
  ⟨windows_convert_unc host path h1 h2 h3 h4 h5, by decide⟩

set_option maxRecDepth 1000000 in
/-- The URL `file://server/share` + 47 x `/long` + `/filea.txt` (`unc` of 259 bytes)
is returned as `\\server\share\long...\filea.txt`, and with `/fileaX.txt`
(260 bytes) as `\\?\UNC\server\share\long...\fileaX.txt`. -/
theorem windows_unc_branch_witness :
    Windows.convertFileURLPath (str "server")
        (str "/share" ++ Repeat (str "/long") 47 ++ str "/filea.txt")
        = (str "\\\\server\\share" ++ Repeat (str "\\long") 47 ++ str "\\filea.txt", none)
      ∧ (str "\\\\server\\share" ++ Repeat (str "\\long") 47 ++ str "\\filea.txt").length = 259
      ∧ Windows.convertFileURLPath (str "server")
        (str "/share" ++ Repeat (str "/long") 47 ++ str "/fileaX.txt")
        = (str "\\\\?\\UNC\\server\\share" ++ Repeat (str "\\long") 47 ++ str "\\fileaX.txt",
           none)
      ∧ (str "\\\\server\\share" ++ Repeat (str "\\long") 47 ++ str "\\fileaX.txt").length
        = 260 :=
  ⟨(windows_unc_branch (str "server")
      (str "/share" ++ Repeat (str "/long") 47 ++ str "/filea.txt")
      (by decide) (by decide) (by decide) (by decide) (by decide)).1.trans (by decide),
   by decide,
   (windows_unc_branch (str "server")
      (str "/share" ++ Repeat (str "/long") 47 ++ str "/fileaX.txt")
      (by decide) (by decide) (by decide) (by decide) (by decide)).1.trans (by decide),
   by decide⟩

/-- Drive branch of Windows `convertFileURLPath`. -/
theorem windows_convert_drive (host q : GoString)
    (hh : host = str "" ∨ host = str "localhost")
    (hv : Windows.VolumeName (Windows.FromSlash q) ≠ str "")
    (hu : HasPrefix (Windows.VolumeName (Windows.FromSlash q)) (str "\\\\") = false) :
    Windows.convertFileURLPath host (str "/" ++ q) =
        (if q.length < 260 then Windows.FromSlash q
         else str "\\\\?\\" ++ Windows.Clean (Windows.FromSlash q),
         none) := by
  have hne : ¬ (str "/" ++ q = str "" ∨ (str "/" ++ q).getD 0 0 ≠ slash) := by
    simp [str_empty, str_slash]
  have hhost : ¬ (host ≠ str "" ∧ host ≠ str "localhost") := by tauto
  have hpath : Windows.FromSlash (str "/" ++ q) = backslash :: Windows.FromSlash q := by
    rw [str_slash]; exact windows_fromSlash_cons_slash q
  have hlenq : (Windows.FromSlash q).length = q.length := by
    simp [Windows.FromSlash, replaceByte]
  unfold Windows.convertFileURLPath
  rw [if_neg hne]
  dsimp only
  rw [if_neg hhost, hpath]
  simp only [List.drop_succ_cons, List.drop_zero]
  rw [if_neg (by simp [hv, hu])]
  by_cases hlen : q.length < 260
  · rw [if_pos hlen, if_neg (by simpa [Windows.maxPath, hlenq] using hlen)]
  · rw [if_neg hlen, if_pos (by simpa [Windows.maxPath, hlenq] using hlen)]

/-- C10 (Windows build, drive branch): for every host equal to the empty string or
`localhost` and every path `/` + `q` where `filepath.VolumeName (FromSlash q)` is
non-empty and does not start with two backslashes, `convertFileURLPath host path`
returns no error. The result is `FromSlash q` when the byte length of `q` is less than
260, and otherwise the 4-byte prefix `\\?\` followed by `filepath.Clean (FromSlash q)`. -/
theorem windows_drive_branch (host q : GoString)
    (hh : host = str "" ∨ host = str "localhost")
    (hv : Windows.VolumeName (Windows.FromSlash q) ≠ str "")
    (hu : HasPrefix (Windows.VolumeName (Windows.FromSlash q)) (str "\\\\") = false) :
    Windows.convertFileURLPath host (str "/" ++ q) =
        (if q.length < 260 then Windows.FromSlash q
         else str "\\\\?\\" ++ Windows.Clean (Windows.FromSlash q),
         none)
      ∧ (str "\\\\?\\").length = 4 :=
  ⟨windows_convert_drive host q hh hv hu, by decide⟩

set_option maxRecDepth 1000000 in
/-- The path `/C:` + 50 x `/long` + `/ab.txt` (`q` of 259 bytes) gives
`C:\long...\ab.txt`, and with `/abX.txt` (260 bytes) gives `\\?\C:\long...\abX.txt`. -/
theorem windows_drive_branch_witness :
    Windows.convertFileURLPath (str "")
        (str "/" ++ (str "C:" ++ Repeat (str "/long") 50 ++ str "/ab.txt"))
        = (str "C:" ++ Repeat (str "\\long") 50 ++ str "\\ab.txt", none)
      ∧ (str "C:" ++ Repeat (str "/long") 50 ++ str "/ab.txt").length = 259
      ∧ Windows.convertFileURLPath (str "localhost")
        (str "/" ++ (str "C:" ++ Repeat (str "/long") 50 ++ str "/abX.txt"))
        = (str "\\\\?\\C:" ++ Repeat (str "\\long") 50 ++ str "\\abX.txt", none)
      ∧ (str "C:" ++ Repeat (str "/long") 50 ++ str "/abX.txt").length = 260 :=
  ⟨(windows_drive_branch (str "")
      (str "C:" ++ Repeat (str "/long") 50 ++ str "/ab.txt")
      (by decide) (by decide) (by decide)).1.trans (by decide),
   by decide,
   (windows_drive_branch (str "localhost")
      (str "C:" ++ Repeat (str "/long") 50 ++ str "/abX.txt")
      (by decide) (by decide) (by decide)).1.trans (by decide),
   by decide⟩

/-! ## Windows build: round trip -/

/-- Windows `FromSlash` is the identity on a string without `'/'`. -/
theorem windows_fromSlash_id (p : GoString) (h : slash ∉ p) : Windows.FromSlash p = p := by
  induction p with
  | nil => rfl
  | cons a q ih =>
    simp only [List.mem_cons, not_or] at h
    have ha : a ≠ slash := fun e => h.1 e.symm
    have := ih h.2
    simp only [Windows.FromSlash, replaceByte, List.map_cons] at this ⊢
    rw [this, if_neg ha]

/-- Windows `FromSlash` undoes `ToSlash` on a string without `'/'`. -/
theorem windows_fromSlash_toSlash (p : GoString) (h : slash ∉ p) :
    Windows.FromSlash (Windows.ToSlash p) = p := by
  induction p with
  | nil => rfl
  | cons a q ih =>
    simp only [List.mem_cons, not_or] at h
    have ha : a ≠ slash := fun e => h.1 e.symm
    have := ih h.2
    simp only [Windows.FromSlash, Windows.ToSlash, replaceByte, List.map_cons] at this ⊢
    rw [this]
    by_cases hb : a = backslash
    · simp [hb]
    · simp [hb, ha]

/-- Windows `ToSlash` is the identity on a string without a backslash. -/
theorem windows_toSlash_id (p : GoString) (h : backslash ∉ p) : Windows.ToSlash p = p := by
  induction p with
  | nil => rfl
  | cons a q ih =>
    simp only [List.mem_cons, not_or] at h
    have ha : a ≠ backslash := fun e => h.1 e.symm
    have := ih h.2
    simp only [Windows.ToSlash, replaceByte, List.map_cons] at this ⊢
    rw [this, if_neg ha]

/-- Windows `ToSlash` is idempotent. -/
theorem windows_toSlash_toSlash (p : GoString) :
    Windows.ToSlash (Windows.ToSlash p) = Windows.ToSlash p := by
  induction p with
  | nil => rfl
  | cons a q ih =>
    simp only [Windows.ToSlash, replaceByte, List.map_cons] at ih ⊢
    rw [ih]
    by_cases hb : a = backslash
    · simp [hb]
    · simp [hb]

/-- Loop of `IndexByte`: the first `c` after a run without `c`. -/
theorem indexByteFrom_append (c : Nat) (h r : GoString) (i : Nat) (hc : c ∉ h) :
    indexByteFrom c (h ++ c :: r) i = ((i + h.length : Nat) : Int) := by
  induction h generalizing i with
  | nil => simp [indexByteFrom]
  | cons a q ih =>
    simp only [List.mem_cons, not_or] at hc
    have ha : a ≠ c := fun e => hc.1 e.symm
    simp only [List.cons_append, indexByteFrom, if_neg ha, List.length_cons, List.append_eq]
    rw [ih (i + 1) hc.2]
    congr 1
    omega

/-- Loop of `uncLen`: the result is not before the start index. -/
theorem uncLenLoop_ge (l : GoString) (i count : Nat) :
    i ≤ Windows.uncLenLoop l i count := by
  induction l generalizing i count with
  | nil => simp [Windows.uncLenLoop]
  | cons a q ih =>
    simp only [Windows.uncLenLoop]
    split_ifs
    · exact le_refl i
    · exact le_trans (Nat.le_succ i) (ih (i + 1) (count + 1))
    · exact le_trans (Nat.le_succ i) (ih (i + 1) count)

/-- Windows `uncLen` is at least `prefixLen`, or the whole length. -/
theorem uncLen_ge (path : GoString) (k : Nat) :
    min k path.length ≤ Windows.uncLen path k := by
  unfold Windows.uncLen
  split_ifs with h
  · exact le_trans (min_le_left _ _) (uncLenLoop_ge _ _ _)
  · exact min_le_right _ _

/-- Windows `cutPath`: when a separator is found, the part after it is shorter. -/
theorem cutPath_after_length (l : GoString) (h : (Windows.cutPath l).2.2 = true) :
    (Windows.cutPath l).2.1.length + 1 ≤ l.length := by
  induction l with
  | nil => simp [Windows.cutPath] at h
  | cons a q ih =>
    simp only [Windows.cutPath] at h ⊢
    split_ifs at h ⊢ with hs
    · simp
    · have := ih h
      simp only [List.length_cons]
      omega

/-- Windows `volumeNameLen`: a path that starts with two separators has a volume name of
at least two bytes. -/
theorem two_le_volumeNameLen (a b : Nat) (t : GoString)
    (ha : Windows.IsPathSeparator a = true) (hb : Windows.IsPathSeparator b = true) :
    2 ≤ Windows.volumeNameLen (a :: b :: t) := by
  have hU : (str "\\\\.\\UNC\\").length = 8 := by decide
  unfold Windows.volumeNameLen
  dsimp only
  split_ifs with h1 h2 h3 h4 h5 h6 h7
  · exact le_refl 2
  · simp [ha] at h2
  · rw [hU]
    exact le_trans (le_min (by omega) (by simp)) (uncLen_ge _ 8)
  · omega
  · simp
  · have := cutPath_after_length (List.drop 4 (a :: b :: t)) (by simpa using h6)
    simp only [List.length_drop, List.length_cons] at this ⊢
    omega
  · exact le_trans (le_min (by omega) (by simp)) (uncLen_ge _ 2)
  · simp [hb] at h7

/-- Hierarchical form on any build: a path that `convertFileURLPath` returns and that
is absolute is the result. -/
theorem toFilePath_hier (pf : Platform) (u : URL) (hs : u.Scheme = str "file")
    (hp : u.Path ≠ str "") (r : GoString)
    (hc : pf.convertFileURLPath u.Host u.Path = (r, none)) (ha : pf.IsAbs r = true) :
    ToFilePath pf u = (r, none) := by
  simp [ToFilePath, hs, hp, hc, checkAbs_eq, ha]

/-- Windows `IsAbs`: an absolute path has a volume name. -/
theorem windows_isAbs_volumeName (p : GoString) (h : Windows.IsAbs p = true) :
    Windows.VolumeName p ≠ str "" := by
  have hl : Windows.volumeNameLen p ≠ 0 := by
    intro h0
    simp [Windows.IsAbs, h0] at h
  cases p with
  | nil => exact absurd (by decide) hl
  | cons a q =>
    obtain ⟨m, hm⟩ : ∃ m, Windows.volumeNameLen (a :: q) = m + 1 :=
      ⟨Windows.volumeNameLen (a :: q) - 1, by omega⟩
    simp [Windows.VolumeName, hm, Windows.FromSlash, replaceByte, str_empty]

/-- Windows `VolumeName` of a path that starts with two backslashes starts with two
backslashes. -/
theorem windows_volumeName_unc (t : GoString) :
    Windows.VolumeName (backslash :: backslash :: t) ≠ str ""
      ∧ HasPrefix (Windows.VolumeName (backslash :: backslash :: t)) (str "\\\\") = true := by
  have h2 := two_le_volumeNameLen backslash backslash t (by decide) (by decide)
  obtain ⟨m, hm⟩ : ∃ m, Windows.volumeNameLen (backslash :: backslash :: t) = m + 2 :=
    ⟨Windows.volumeNameLen (backslash :: backslash :: t) - 2, by omega⟩
  simp [Windows.VolumeName, hm, Windows.FromSlash, replaceByte, str_empty, str_backslash2,
    HasPrefix, List.isPrefixOf]

/-- Windows `VolumeName` of a path without `'/'` that does not start with two
backslashes does not start with two backslashes. -/
theorem windows_volumeName_drive (p : GoString) (hSlash : slash ∉ p)
    (hU : HasPrefix p (str "\\\\") = false) :
    HasPrefix (Windows.VolumeName p) (str "\\\\") = false := by
  have hT : slash ∉ p.take (Windows.volumeNameLen p) :=
    fun hm => hSlash (List.mem_of_mem_take hm)
  rw [Windows.VolumeName, windows_fromSlash_id _ hT]
  cases hV : HasPrefix (p.take (Windows.volumeNameLen p)) (str "\\\\") with
  | false => rfl
  | true =>
    have h1 : str "\\\\" <+: p.take (Windows.volumeNameLen p) := by
      simpa [HasPrefix] using hV
    have h2 : str "\\\\" <+: p := h1.trans (List.take_prefix _ _)
    have : HasPrefix p (str "\\\\") = true := by simpa [HasPrefix] using h2
    rw [this] at hU
    exact absurd hU (by simp)

/-- Round trip on Windows for a path that does not start with two backslashes. -/
theorem windows_roundtrip_drive (p : GoString) (hAbs : Windows.IsAbs p = true)
    (hSlash : slash ∉ p) (hLen : p.length < 260)
    (hU : HasPrefix p (str "\\\\") = false) :
    ∃ u, FromFilePath windows p = (some u, none) ∧ ToFilePath windows u = (p, none) := by
  have hv := windows_isAbs_volumeName p hAbs
  have hu := windows_volumeName_drive p hSlash hU
  refine ⟨{ Scheme := str "file", Path := str "/" ++ Windows.ToSlash p }, ?_, ?_⟩
  · simp [FromFilePath, windows, hAbs, hv, hu]
  · have hFT := windows_fromSlash_toSlash p hSlash
    have hlenT : (Windows.ToSlash p).length = p.length := by
      simp [Windows.ToSlash, replaceByte]
    have hc := windows_convert_drive (str "") (Windows.ToSlash p) (Or.inl rfl)
      (by rw [hFT]; exact hv) (by rw [hFT]; exact hu)
    rw [hFT, hlenT, if_pos hLen] at hc
    refine toFilePath_hier windows _ rfl (by simp [str_slash, str_empty]) p ?_ hAbs
    simpa [windows, str_empty] using hc

/-- Round trip on Windows for a UNC path `\\host\rest`. -/
theorem windows_roundtrip_unc (host rest : GoString)
    (hAbs : Windows.IsAbs (backslash :: backslash :: (host ++ backslash :: rest)) = true)
    (hSh : slash ∉ host) (hSr : slash ∉ rest) (hB : backslash ∉ host)
    (h1 : host ≠ str "") (h2 : host ≠ str "localhost")
    (h3 : Windows.VolumeName host = str "") (hr : rest ≠ str "")
    (hLen : (backslash :: backslash :: (host ++ backslash :: rest)).length < 260) :
    ∃ u, FromFilePath windows (backslash :: backslash :: (host ++ backslash :: rest))
          = (some u, none)
      ∧ ToFilePath windows u
          = (backslash :: backslash :: (host ++ backslash :: rest), none) := by
  obtain ⟨hv, hu⟩ := windows_volumeName_unc (host ++ backslash :: rest)
  have hpath : Windows.ToSlash (host ++ backslash :: rest)
      = host ++ slash :: Windows.ToSlash rest := by
    have := windows_toSlash_id host hB
    simp only [Windows.ToSlash, replaceByte, List.map_append, List.map_cons] at this ⊢
    rw [this]
    simp
  have hidx : IndexByte (host ++ slash :: Windows.ToSlash rest) slash
      = ((host.length : Nat) : Int) := by
    rw [IndexByte, indexByteFrom_append slash host _ 0 hSh]
    simp
  have htail : Windows.ToSlash (slash :: Windows.ToSlash rest)
      = slash :: Windows.ToSlash rest := by
    have := windows_toSlash_toSlash rest
    simp only [Windows.ToSlash, replaceByte, List.map_cons] at this ⊢
    rw [this]
    simp
  refine ⟨{ Scheme := str "file", Host := host, Path := slash :: Windows.ToSlash rest },
    ?_, ?_⟩
  · unfold FromFilePath
    simp only [windows, hAbs, Bool.not_true, Bool.false_eq_true, if_false, ne_eq, hv,
      not_false_eq_true, if_true, hu, List.drop_succ_cons, List.drop_zero, hpath, hidx]
    rw [if_neg (by omega)]
    simp [htail]
  · have hrest : rest ≠ [] := by simpa [str_empty] using hr
    have h5 : slash :: Windows.ToSlash rest ≠ str "/" := by
      rw [str_slash]
      intro h
      have hlen := congrArg List.length h
      simp [Windows.ToSlash, replaceByte] at hlen
      exact hrest hlen
    have hc := windows_convert_unc host (slash :: Windows.ToSlash rest) h1 h2 h3
      (by simp) h5
    have hunc : str "\\\\" ++ host ++ Windows.FromSlash (slash :: Windows.ToSlash rest)
        = backslash :: backslash :: (host ++ backslash :: rest) := by
      rw [windows_fromSlash_cons_slash, windows_fromSlash_toSlash rest hSr, str_backslash2]
      simp
    rw [hunc, if_pos hLen] at hc
    exact toFilePath_hier windows _ rfl (by simp [str_empty]) _ hc hAbs

/-- C2, as amended (Windows build): for every absolute path `p` that contains no `'/'`
and is shorter than 260 bytes, and that either does not begin with two backslashes, or
has the form `\\host\rest` with `host` free of backslashes, non-empty, neither
`localhost` nor `?`, not a volume name, and `rest` non-empty: `FromFilePath p` succeeds,
and `ToFilePath` accepts the URL it returns and returns exactly `p`. -/
theorem windows_roundtrip (p : GoString) (hAbs : Windows.IsAbs p = true)
    (hSlash : slash ∉ p) (hLen : p.length < 260)
    (hUNC : HasPrefix p (str "\\\\") = true →
      ∃ host rest, p = str "\\\\" ++ host ++ str "\\" ++ rest ∧ backslash ∉ host
        ∧ host ≠ str "" ∧ host ≠ str "localhost" ∧ host ≠ str "?"
        ∧ Windows.VolumeName host = str "" ∧ rest ≠ str "") :
    ∃ u, FromFilePath windows p = (some u, none) ∧ ToFilePath windows u = (p, none) := by
  cases hU : HasPrefix p (str "\\\\") with
  | false => exact windows_roundtrip_drive p hAbs hSlash hLen hU
  | true =>
    obtain ⟨host, rest, hp, hB, h1, h2, _, h3, hr⟩ := hUNC hU
    have hp2 : p = backslash :: backslash :: (host ++ backslash :: rest) := by
      rw [hp, str_backslash2, str_backslash]
      simp
    subst hp2
    have hSh : slash ∉ host := fun h => hSlash (by simp [h])
    have hSr : slash ∉ rest := fun h => hSlash (by simp [h])
    exact windows_roundtrip_unc host rest hAbs hSh hSr hB h1 h2 h3 hr hLen

/-- The paths `C:\path\to\file.txt` and `\\server\share\file.txt` round-trip on the
Windows build. -/
theorem windows_roundtrip_witness :
    (∃ u, FromFilePath windows (str "C:\\path\\to\\file.txt") = (some u, none)
        ∧ ToFilePath windows u = (str "C:\\path\\to\\file.txt", none))
      ∧ (∃ u, FromFilePath windows (str "\\\\server\\share\\file.txt") = (some u, none)
        ∧ ToFilePath windows u = (str "\\\\server\\share\\file.txt", none)) :=
  ⟨windows_roundtrip (str "C:\\path\\to\\file.txt") (by decide) (by decide) (by decide)
      (fun h => absurd h (by decide)),
   windows_roundtrip (str "\\\\server\\share\\file.txt") (by decide) (by decide) (by decide)
      (fun _ => ⟨str "server", str "share\\file.txt", by decide, by decide, by decide,
        by decide, by decide, by decide, by decide⟩)⟩

set_option maxRecDepth 1000000 in
/-- C2, as stated, fails on the Windows build: the round trip does not hold for every
absolute path. Each of these paths is absolute and `FromFilePath` accepts it, but
`ToFilePath` of the URL returned does not give the path back: a bare `\\host` and `\\host\` (no share), a path written with `'/'`, a path of
260 bytes or more, a UNC path whose host is `localhost`, is empty, or is a volume
name, and a `\\?\`-prefixed path of 260 bytes or more. -/
theorem windows_roundtrip_counterexample :
    (¬ ∀ p, Windows.IsAbs p = true →
        ∃ u, FromFilePath windows p = (some u, none) ∧ ToFilePath windows u = (p, none))
    ∧ (Windows.IsAbs (str "\\\\host") = true
      ∧ FromFilePath windows (str "\\\\host")
          = (some { Scheme := str "file", Host := str "host", Path := str "/" }, none)
      ∧ ToFilePath windows { Scheme := str "file", Host := str "host", Path := str "/" }
          = ([], some errMissingShare))
    ∧ (Windows.IsAbs (str "\\\\host\\") = true
      ∧ FromFilePath windows (str "\\\\host\\")
          = (some { Scheme := str "file", Host := str "host", Path := str "/" }, none))
    ∧ (Windows.IsAbs (str "C:/dir/file.txt") = true
      ∧ FromFilePath windows (str "C:/dir/file.txt")
          = (some { Scheme := str "file", Path := str "/C:/dir/file.txt" }, none)
      ∧ ToFilePath windows { Scheme := str "file", Path := str "/C:/dir/file.txt" }
          = (str "C:\\dir\\file.txt", none))
    ∧ (Windows.IsAbs (str "C:" ++ Repeat (str "\\long") 52) = true
      ∧ FromFilePath windows (str "C:" ++ Repeat (str "\\long") 52)
          = (some { Scheme := str "file", Path := str "/C:" ++ Repeat (str "/long") 52 },
             none)
      ∧ ToFilePath windows { Scheme := str "file", Path := str "/C:" ++ Repeat (str "/long") 52 }
          = (str "\\\\?\\C:" ++ Repeat (str "\\long") 52, none))
    ∧ (Windows.IsAbs (str "\\\\localhost\\share\\file.txt") = true
      ∧ FromFilePath windows (str "\\\\localhost\\share\\file.txt")
          = (some { Scheme := str "file", Host := str "localhost",
                    Path := str "/share/file.txt" }, none)
      ∧ ToFilePath windows { Scheme := str "file", Host := str "localhost",
                             Path := str "/share/file.txt" }
          = ([], some errMissingVolume))
    ∧ (Windows.IsAbs (str "\\\\\\share\\file.txt") = true
      ∧ FromFilePath windows (str "\\\\\\share\\file.txt")
          = (some { Scheme := str "file", Path := str "/share/file.txt" }, none)
      ∧ ToFilePath windows { Scheme := str "file", Path := str "/share/file.txt" }
          = ([], some errMissingVolume))
    ∧ (Windows.IsAbs (str "\\\\C:\\share\\file.txt") = true
      ∧ FromFilePath windows (str "\\\\C:\\share\\file.txt")
          = (some { Scheme := str "file", Host := str "C:", Path := str "/share/file.txt" },
             none)
      ∧ ToFilePath windows { Scheme := str "file", Host := str "C:",
                             Path := str "/share/file.txt" }
          = ([], some errVolumeInHost))
    ∧ (Windows.IsAbs (str "\\\\?\\C:" ++ Repeat (str "\\long") 52) = true
      ∧ FromFilePath windows (str "\\\\?\\C:" ++ Repeat (str "\\long") 52)
          = (some { Scheme := str "file", Host := str "?",
                    Path := str "/C:" ++ Repeat (str "/long") 52 }, none)
      ∧ ToFilePath windows { Scheme := str "file", Host := str "?",
                             Path := str "/C:" ++ Repeat (str "/long") 52 }
          = (str "\\\\?\\UNC\\?\\C:" ++ Repeat (str "\\long") 52, none)) := by
  refine ⟨?_, ?_, ?_, ?_, ?_, ?_, ?_, ?_, ?_⟩
  · intro h
    obtain ⟨u, h1, h2⟩ := h (str "\\\\host") (by decide)
    have h3 : FromFilePath windows (str "\\\\host")
        = (some { Scheme := str "file", Host := str "host", Path := str "/" }, none) := by
      decide
    rw [h3] at h1
    cases h1
    exact absurd h2 (by decide)
  all_goals decide

/-! ## Windows build: errors of the host branch, and `localhost` -/

/-- Hierarchical form on any build: an error of `convertFileURLPath` is returned as is. -/
theorem toFilePath_hier_error (pf : Platform) (u : URL) (hs : u.Scheme = str "file")
    (hp : u.Path ≠ str "") (r : GoString) (e : Error)
    (hc : pf.convertFileURLPath u.Host u.Path = (r, some e)) :
    ToFilePath pf u = (r, some e) := by
  simp [ToFilePath, hs, hp, hc]

/-- C11 (Windows build): for every URL with scheme `file`, a path that starts with
`'/'`, and a host that is neither empty nor `localhost` and that itself parses as a
volume name (`filepath.VolumeName host` is non-empty, such as `D:`), `ToFilePath`
returns `errVolumeInHost`; also when the path is exactly `/`, since the host is looked
at before the share. -/
theorem windows_volumeInHost (u : URL) (hs : u.Scheme = str "file")
    (hp : u.Path.head? = some slash) (h1 : u.Host ≠ str "") (h2 : u.Host ≠ str "localhost")
    (h3 : Windows.VolumeName u.Host ≠ str "") :
    ToFilePath windows u = ([], some errVolumeInHost)
      ∧ errVolumeInHost.text
          = str "file URL encodes volume in host field: too few slashes?" := by
  refine ⟨?_, rfl⟩
  obtain ⟨q, hq⟩ := head_slash u.Path hp
  have hne : ¬ (u.Path = str "" ∨ u.Path.getD 0 0 ≠ slash) := by
    simp [hq, str_empty]
  have hc : windows.convertFileURLPath u.Host u.Path = ([], some errVolumeInHost) := by
    show Windows.convertFileURLPath u.Host u.Path = _
    unfold Windows.convertFileURLPath
    rw [if_neg hne]
    dsimp only
    rw [if_pos ⟨h1, h2⟩, if_pos h3]
  exact toFilePath_hier_error windows u hs (by simp [hq, str_empty]) _ _ hc

/-- The URLs `file://D:/Program Files/Viewer/startup.htm` and `file://D:/` fail with
`errVolumeInHost`. -/
theorem windows_volumeInHost_witness :
    ToFilePath windows
        { Scheme := str "file", Host := str "D:", Path := str "/Program Files/Viewer/startup.htm" }
        = ([], some errVolumeInHost)
      ∧ ToFilePath windows { Scheme := str "file", Host := str "D:", Path := str "/" }
        = ([], some errVolumeInHost) :=
  ⟨(windows_volumeInHost
      { Scheme := str "file", Host := str "D:", Path := str "/Program Files/Viewer/startup.htm" }
      (by decide) (by decide) (by decide) (by decide) (by decide)).1,
   (windows_volumeInHost { Scheme := str "file", Host := str "D:", Path := str "/" }
      (by decide) (by decide) (by decide) (by decide) (by decide)).1⟩

/-- C12 (Windows build): for every URL with scheme `file`, path exactly `/`, and a host
that is neither empty nor `localhost` and does not parse as a volume name
(`filepath.VolumeName host` is empty), `ToFilePath` returns `errMissingShare`: a
host-only UNC URL such as `file://server/` is never converted to a path. -/
theorem windows_missingShare (u : URL) (hs : u.Scheme = str "file")
    (hp : u.Path = str "/") (h1 : u.Host ≠ str "") (h2 : u.Host ≠ str "localhost")
    (h3 : Windows.VolumeName u.Host = str "") :
    ToFilePath windows u = ([], some errMissingShare)
      ∧ errMissingShare.text = str "file URL missing UNC share name" := by
  refine ⟨?_, rfl⟩
  have hne : ¬ (u.Path = str "" ∨ u.Path.getD 0 0 ≠ slash) := by
    rw [hp]; decide
  have hshare : Windows.FromSlash u.Path = str "\\" := by
    rw [hp]; decide
  have hc : windows.convertFileURLPath u.Host u.Path = ([], some errMissingShare) := by
    show Windows.convertFileURLPath u.Host u.Path = _
    unfold Windows.convertFileURLPath
    rw [if_neg hne]
    dsimp only
    rw [if_pos ⟨h1, h2⟩, if_neg (not_not.mpr h3), if_pos hshare]
  exact toFilePath_hier_error windows u hs (by rw [hp]; decide) _ _ hc

/-- The URL `file://server/` fails with `errMissingShare`. -/
theorem windows_missingShare_witness :
    ToFilePath windows { Scheme := str "file", Host := str "server", Path := str "/" }
        = ([], some errMissingShare)
      ∧ errMissingShare.text = str "file URL missing UNC share name" :=
  windows_missingShare { Scheme := str "file", Host := str "server", Path := str "/" }
    (by decide) (by decide) (by decide) (by decide) (by decide)

/-- Function `ToFilePath` on any build, for a non-empty path: the result depends on the
host only through `convertFileURLPath`. -/
theorem toFilePath_congr_host (pf : Platform) (u v : URL)
    (hs : u.Scheme = v.Scheme) (hp : u.Path = v.Path) (hne : u.Path ≠ str "")
    (hc : pf.convertFileURLPath u.Host u.Path = pf.convertFileURLPath v.Host v.Path) :
    ToFilePath pf u = ToFilePath pf v := by
  have hne2 : v.Path ≠ str "" := hp ▸ hne
  simp only [ToFilePath, hs, hne, hne2, hc, if_false]

/-- C17 (both builds): the authority `localhost` is the same as an empty authority:
for every non-empty path, `ToFilePath` of the URL with scheme `file`, host `localhost`
and that path returns the same path and the same error as `ToFilePath` of the URL with
scheme `file`, empty host and that path. -/
theorem localhost_same_as_empty_host (path opq : GoString) (hp : path ≠ str "") :
    ToFilePath posix
        { Scheme := str "file", Opaque := opq, Host := str "localhost", Path := path }
      = ToFilePath posix { Scheme := str "file", Opaque := opq, Host := str "", Path := path }
    ∧ ToFilePath windows
        { Scheme := str "file", Opaque := opq, Host := str "localhost", Path := path }
      = ToFilePath windows
          { Scheme := str "file", Opaque := opq, Host := str "", Path := path } := by
  have hP : Posix.convertFileURLPath (str "localhost") path
      = Posix.convertFileURLPath (str "") path := by
    simp [Posix.convertFileURLPath]
  have hW : Windows.convertFileURLPath (str "localhost") path
      = Windows.convertFileURLPath (str "") path := by
    unfold Windows.convertFileURLPath
    simp
  exact ⟨toFilePath_congr_host posix
      { Scheme := str "file", Opaque := opq, Host := str "localhost", Path := path }
      { Scheme := str "file", Opaque := opq, Host := str "", Path := path } rfl rfl hp hP,
    toFilePath_congr_host windows
      { Scheme := str "file", Opaque := opq, Host := str "localhost", Path := path }
      { Scheme := str "file", Opaque := opq, Host := str "", Path := path } rfl rfl hp hW⟩

/-- The URLs `file://localhost/C:/Windows/System32/cmd.exe` and
`file:///C:/Windows/System32/cmd.exe` give `C:\Windows\System32\cmd.exe` on Windows, and
`file://localhost/path/to/file` gives the same as `file:///path/to/file` on POSIX. -/
theorem localhost_same_as_empty_host_witness :
    ToFilePath windows
        { Scheme := str "file", Host := str "localhost", Path := str "/C:/Windows/System32/cmd.exe" }
      = (str "C:\\Windows\\System32\\cmd.exe", none)
    ∧ ToFilePath posix
        { Scheme := str "file", Host := str "localhost", Path := str "/path/to/file" }
      = ToFilePath posix { Scheme := str "file", Host := str "", Path := str "/path/to/file" } :=
  ⟨(localhost_same_as_empty_host (str "/C:/Windows/System32/cmd.exe") (str "")
      (by decide)).2.trans (by decide),
   (localhost_same_as_empty_host (str "/path/to/file") (str "") (by decide)).1⟩

/-! ## Windows build: `FromFilePath` of UNC and drive-letter paths -/

/-- Windows `IsAbs`: a path that starts with two separators is absolute. -/
theorem windows_isAbs_seps (a b : Nat) (t : GoString)
    (ha : Windows.IsPathSeparator a = true) (hb : Windows.IsPathSeparator b = true) :
    Windows.IsAbs (a :: b :: t) = true := by
  have h2 := two_le_volumeNameLen a b t ha hb
  have h0 : Windows.volumeNameLen (a :: b :: t) ≠ 0 := by omega
  simp [Windows.IsAbs, h0, ha, hb]

/-- Loop of `IndexByte`: `-1` when the byte does not occur. -/
theorem indexByteFrom_not_mem (c : Nat) (s : GoString) (i : Nat) (hc : c ∉ s) :
    indexByteFrom c s i = -1 := by
  induction s generalizing i with
  | nil => rfl
  | cons a q ih =>
    simp only [List.mem_cons, not_or] at hc
    have ha : a ≠ c := fun e => hc.1 e.symm
    simp only [indexByteFrom, if_neg ha]
    exact ih (i + 1) hc.2

/-- C15 (Windows build): for every UNC path `\\host\rest` (two backslashes, a host
containing no separator, one backslash, then `rest`), which is absolute, `FromFilePath`
returns a URL with scheme `file`, host `host` and path `/` followed by `ToSlash rest`;
for a bare `\\host` with no further separator, also absolute, it returns host `host`
and path `/`. The host may be any string without a separator, the empty one too. -/
theorem windows_fromFilePath_unc (host rest : GoString)
    (hB : backslash ∉ host) (hS : slash ∉ host) :
    (Windows.IsAbs (str "\\\\" ++ host ++ str "\\" ++ rest) = true
      ∧ FromFilePath windows (str "\\\\" ++ host ++ str "\\" ++ rest)
        = (some { Scheme := str "file", Host := host,
                  Path := str "/" ++ Windows.ToSlash rest }, none))
    ∧ (Windows.IsAbs (str "\\\\" ++ host) = true
      ∧ FromFilePath windows (str "\\\\" ++ host)
        = (some { Scheme := str "file", Host := host, Path := str "/" }, none)) := by
  have hp1 : str "\\\\" ++ host ++ str "\\" ++ rest
      = backslash :: backslash :: (host ++ backslash :: rest) := by
    rw [str_backslash2, str_backslash]; simp
  have hp2 : str "\\\\" ++ host = backslash :: backslash :: host := by
    rw [str_backslash2]; simp
  rw [hp1, hp2]
  have hAbs1 := windows_isAbs_seps backslash backslash (host ++ backslash :: rest)
    (by decide) (by decide)
  have hAbs2 := windows_isAbs_seps backslash backslash host (by decide) (by decide)
  obtain ⟨hv1, hu1⟩ := windows_volumeName_unc (host ++ backslash :: rest)
  obtain ⟨hv2, hu2⟩ := windows_volumeName_unc host
  have hpath : Windows.ToSlash (host ++ backslash :: rest)
      = host ++ slash :: Windows.ToSlash rest := by
    have := windows_toSlash_id host hB
    simp only [Windows.ToSlash, replaceByte, List.map_append, List.map_cons] at this ⊢
    rw [this]
    simp
  have hidx : IndexByte (host ++ slash :: Windows.ToSlash rest) slash
      = ((host.length : Nat) : Int) := by
    rw [IndexByte, indexByteFrom_append slash host _ 0 hS]
    simp
  have htail : Windows.ToSlash (slash :: Windows.ToSlash rest)
      = slash :: Windows.ToSlash rest := by
    have := windows_toSlash_toSlash rest
    simp only [Windows.ToSlash, replaceByte, List.map_cons] at this ⊢
    rw [this]
    simp
  have hidx2 : IndexByte host slash = -1 := indexByteFrom_not_mem slash host 0 hS
  refine ⟨⟨hAbs1, ?_⟩, hAbs2, ?_⟩
  · unfold FromFilePath
    simp only [windows, hAbs1, Bool.not_true, Bool.false_eq_true, if_false, ne_eq, hv1,
      not_false_eq_true, if_true, hu1, List.drop_succ_cons, List.drop_zero, hpath, hidx]
    rw [if_neg (by omega)]
    simp [htail, str_slash]
  · unfold FromFilePath
    simp only [windows, hAbs2, Bool.not_true, Bool.false_eq_true, if_false, ne_eq, hv2,
      not_false_eq_true, if_true, hu2, List.drop_succ_cons, List.drop_zero,
      windows_toSlash_id host hB, hidx2]
    simp

/-- The path `\\host.example.com\Share\path\to\file.txt` gives host `host.example.com`
and path `/Share/path/to/file.txt`, and the bare `\\host.example.com` gives path `/`. -/
theorem windows_fromFilePath_unc_witness :
    FromFilePath windows (str "\\\\host.example.com\\Share\\path\\to\\file.txt")
        = (some { Scheme := str "file", Host := str "host.example.com",
                  Path := str "/Share/path/to/file.txt" }, none)
      ∧ FromFilePath windows (str "\\\\host.example.com")
        = (some { Scheme := str "file", Host := str "host.example.com", Path := str "/" },
           none) :=
  ⟨(windows_fromFilePath_unc (str "host.example.com") (str "Share\\path\\to\\file.txt")
      (by decide) (by decide)).1.2.trans (by decide),
   (windows_fromFilePath_unc (str "host.example.com") (str "Share\\path\\to\\file.txt")
      (by decide) (by decide)).2.2.trans (by decide)⟩

/-- Windows `volumeNameLen` of a path whose second byte is `':'`. -/
theorem volumeNameLen_colon (d : Nat) (t : GoString) :
    Windows.volumeNameLen (d :: colon :: t) = 2 := by
  simp [Windows.volumeNameLen]

/-- Round trip on Windows for a path that does not start with two backslashes, with
the URL that `FromFilePath` returns. -/
theorem windows_roundtrip_drive_url (p : GoString) (hAbs : Windows.IsAbs p = true)
    (hSlash : slash ∉ p) (hLen : p.length < 260)
    (hU : HasPrefix p (str "\\\\") = false) :
    FromFilePath windows p
        = (some { Scheme := str "file", Path := str "/" ++ Windows.ToSlash p }, none)
      ∧ ToFilePath windows { Scheme := str "file", Path := str "/" ++ Windows.ToSlash p }
        = (p, none) := by
  have hv := windows_isAbs_volumeName p hAbs
  have hu := windows_volumeName_drive p hSlash hU
  refine ⟨?_, ?_⟩
  · simp [FromFilePath, windows, hAbs, hv, hu]
  · have hFT := windows_fromSlash_toSlash p hSlash
    have hlenT : (Windows.ToSlash p).length = p.length := by
      simp [Windows.ToSlash, replaceByte]
    have hc := windows_convert_drive (str "") (Windows.ToSlash p) (Or.inl rfl)
      (by rw [hFT]; exact hv) (by rw [hFT]; exact hu)
    rw [hFT, hlenT, if_pos hLen] at hc
    refine toFilePath_hier windows _ rfl (by simp [str_slash, str_empty]) p ?_ hAbs
    simpa [windows, str_empty] using hc

/-- C20 (Windows build): for every drive-letter path `p` (an ASCII letter, `':'`, a
backslash, then any remainder) that contains no `'/'` and whose byte length is less
than 260, `p` is absolute, `FromFilePath p` returns a URL with scheme `file`, empty
host and path `/` followed by `ToSlash p`, and `ToFilePath` of that URL returns
exactly `p`. -/
theorem windows_drive_roundtrip (d : Nat) (rest : GoString)
    (hd : (65 ≤ d ∧ d ≤ 90) ∨ (97 ≤ d ∧ d ≤ 122)) (hS : slash ∉ rest)
    (hLen : (d :: colon :: backslash :: rest).length < 260) :
    Windows.IsAbs (d :: colon :: backslash :: rest) = true
      ∧ FromFilePath windows (d :: colon :: backslash :: rest)
        = (some { Scheme := str "file", Host := str "",
                  Path := str "/" ++ Windows.ToSlash (d :: colon :: backslash :: rest) },
           none)
      ∧ ToFilePath windows
          { Scheme := str "file", Host := str "",
            Path := str "/" ++ Windows.ToSlash (d :: colon :: backslash :: rest) }
        = (d :: colon :: backslash :: rest, none) := by
  have hd1 : d ≠ backslash := by simp only [backslash]; omega
  have hd2 : d ≠ slash := by simp only [slash]; omega
  have hAbs : Windows.IsAbs (d :: colon :: backslash :: rest) = true := by
    simp [Windows.IsAbs, volumeNameLen_colon, Windows.IsPathSeparator, str_empty]
  have hSlash : slash ∉ d :: colon :: backslash :: rest := by
    simp only [List.mem_cons, not_or]
    exact ⟨fun e => hd2 e.symm, by decide, by decide, hS⟩
  have hU : HasPrefix (d :: colon :: backslash :: rest) (str "\\\\") = false := by
    simp [HasPrefix, str_backslash2, List.isPrefixOf, hd1]
  have h := windows_roundtrip_drive_url _ hAbs hSlash hLen hU
  exact ⟨hAbs, by simpa [str_empty] using h.1, by simpa [str_empty] using h.2⟩

/-- The paths `C:\path\to\file.txt` and `C:\` round-trip through
`file:///C:/path/to/file.txt` and `file:///C:/`. -/
theorem windows_drive_roundtrip_witness :
    (FromFilePath windows (str "C:\\path\\to\\file.txt")
        = (some { Scheme := str "file", Path := str "/C:/path/to/file.txt" }, none)
      ∧ ToFilePath windows { Scheme := str "file", Path := str "/C:/path/to/file.txt" }
        = (str "C:\\path\\to\\file.txt", none))
    ∧ (FromFilePath windows (str "C:\\")
        = (some { Scheme := str "file", Path := str "/C:/" }, none)
      ∧ ToFilePath windows { Scheme := str "file", Path := str "/C:/" }
        = (str "C:\\", none)) :=
  ⟨(windows_drive_roundtrip 67 (str "path\\to\\file.txt") (by decide) (by decide)
      (by decide)).2,
   (windows_drive_roundtrip 67 (str "") (by decide) (by decide) (by decide)).2⟩

/-! ## Windows build: the volume check of the no-host branch -/

/-- Windows `IsPathSeparator`: the two separator bytes. -/
theorem isPathSeparator_iff (c : Nat) :
    Windows.IsPathSeparator c = true ↔ c = backslash ∨ c = slash := by
  simp [Windows.IsPathSeparator]

/-- Windows `pathHasPrefixFold`: what a match says about byte `i` of `s`. -/
theorem pathHasPrefixFold_at (s pfx : GoString)
    (h : Windows.pathHasPrefixFold s pfx = true) (i : Nat) (hi : i < pfx.length) :
    if Windows.IsPathSeparator (pfx.getD i 0) = true then
      Windows.IsPathSeparator (s.getD i 0) = true
    else Windows.toUpper (pfx.getD i 0) = Windows.toUpper (s.getD i 0) := by
  unfold Windows.pathHasPrefixFold at h
  split_ifs at h with h1 h2 h3
  have hall := h2
  simp only [Bool.not_eq_true', Bool.not_eq_false, List.all_eq_true, List.mem_range] at hall
  have := hall i hi
  split_ifs with hsep
  · rw [if_pos hsep] at this
    exact this
  · rw [if_neg hsep] at this
    exact of_decide_eq_true this

/-- Windows `toUpper` sends only `'?'` to `'?'`. -/
theorem toUpper_question (c : Nat) (h : Windows.toUpper question = Windows.toUpper c) :
    c = question := by
  unfold Windows.toUpper at h
  simp only [question] at h ⊢
  split_ifs at h <;> omega

/-- Windows `volumeNameLen` is 0 when byte 1 is not `':'` and either byte 0 is not a
separator, or byte 1 is neither a separator nor `'?'`. -/
theorem volumeNameLen_eq_zero (s : GoString)
    (h1 : ¬ (s.length ≥ 2 ∧ s.getD 1 0 = colon))
    (h2 : Windows.IsPathSeparator (s.getD 0 0) = false
      ∨ (Windows.IsPathSeparator (s.getD 1 0) = false ∧ s.getD 1 0 ≠ question)) :
    Windows.volumeNameLen s = 0 := by
  unfold Windows.volumeNameLen
  rw [if_neg h1]
  by_cases h0 : s.length = 0 ∨ (!Windows.IsPathSeparator (s.getD 0 0)) = true
  · rw [if_pos h0]
  rw [if_neg h0]
  have hs0 : Windows.IsPathSeparator (s.getD 0 0) = true := by
    by_contra hc
    exact h0 (Or.inr (by simpa using hc))
  have h2' : Windows.IsPathSeparator (s.getD 1 0) = false ∧ s.getD 1 0 ≠ question := by
    rcases h2 with h | h
    · rw [hs0] at h; exact absurd h (by simp)
    · exact h
  have hA : Windows.pathHasPrefixFold s (str "\\\\.\\UNC") = false := by
    by_contra hc
    have := pathHasPrefixFold_at s _ (by simpa using hc) 1 (by decide)
    rw [if_pos (by decide)] at this
    rw [h2'.1] at this
    exact absurd this (by simp)
  have hB : Windows.pathHasPrefixFold s (str "\\\\.") = false := by
    by_contra hc
    have := pathHasPrefixFold_at s _ (by simpa using hc) 1 (by decide)
    rw [if_pos (by decide)] at this
    rw [h2'.1] at this
    exact absurd this (by simp)
  have hC : Windows.pathHasPrefixFold s (str "\\\\?") = false := by
    by_contra hc
    have := pathHasPrefixFold_at s _ (by simpa using hc) 1 (by decide)
    rw [if_pos (by decide)] at this
    rw [h2'.1] at this
    exact absurd this (by simp)
  have hD : Windows.pathHasPrefixFold s (str "\\??") = false := by
    by_contra hc
    have := pathHasPrefixFold_at s _ (by simpa using hc) 1 (by decide)
    rw [if_neg (by decide)] at this
    exact h2'.2 (toUpper_question _ this)
  simp only [hA, hB, hC, hD, Bool.or_self, Bool.false_eq_true, if_false]
  rw [if_neg]
  rintro ⟨_, h⟩
  rw [h2'.1] at h
  exact absurd h (by simp)

/-- Windows `VolumeName` of a path that starts with two separators is not empty and
starts with two backslashes. -/
theorem windows_volumeName_seps (a b : Nat) (t : GoString)
    (ha : Windows.IsPathSeparator a = true) (hb : Windows.IsPathSeparator b = true) :
    Windows.VolumeName (a :: b :: t) ≠ str ""
      ∧ HasPrefix (Windows.VolumeName (a :: b :: t)) (str "\\\\") = true := by
  have h2 := two_le_volumeNameLen a b t ha hb
  obtain ⟨m, hm⟩ : ∃ m, Windows.volumeNameLen (a :: b :: t) = m + 2 :=
    ⟨Windows.volumeNameLen (a :: b :: t) - 2, by omega⟩
  rw [isPathSeparator_iff] at ha hb
  rcases ha with rfl | rfl <;> rcases hb with rfl | rfl <;>
    simp [Windows.VolumeName, hm, Windows.FromSlash, replaceByte, str_empty, str_backslash2,
      HasPrefix, List.isPrefixOf]

/-- The volume check of the no-host branch fails when byte 1 of `q` is not `':'` and
`q` does not start with a separator followed by `'?'`. -/
theorem windows_volumeName_bad (q : GoString)
    (h1 : ¬ (2 ≤ q.length ∧ q.getD 1 0 = colon))
    (h3 : ¬ (Windows.IsPathSeparator (q.getD 0 0) = true ∧ q.getD 1 0 = question)) :
    Windows.VolumeName (Windows.FromSlash q) = str ""
      ∨ HasPrefix (Windows.VolumeName (Windows.FromSlash q)) (str "\\\\") = true := by
  match q, h1, h3 with
  | [], _, _ => exact Or.inl (by decide)
  | [a], _, _ =>
    left
    have : Windows.volumeNameLen (Windows.FromSlash [a]) = 0 := by
      apply volumeNameLen_eq_zero
      · simp [Windows.FromSlash, replaceByte]
      · right
        simp [Windows.FromSlash, replaceByte, Windows.IsPathSeparator]
    unfold Windows.VolumeName
    rw [this]
    simp [Windows.FromSlash, replaceByte, str_empty]
  | a :: b :: t, h1, h3 =>
    have hF : Windows.FromSlash (a :: b :: t)
        = (if a = slash then backslash else a) :: (if b = slash then backslash else b)
            :: Windows.FromSlash t := by
      simp [Windows.FromSlash, replaceByte]
    have hb : b ≠ colon := by
      intro hb
      exact h1 ⟨by simp, by simp [hb]⟩
    by_cases hab : Windows.IsPathSeparator a = true ∧ Windows.IsPathSeparator b = true
    · right
      rw [hF]
      apply (windows_volumeName_seps _ _ _ _ _).2
      · rcases (isPathSeparator_iff a).mp hab.1 with h | h <;>
          simp [h, Windows.IsPathSeparator]
      · rcases (isPathSeparator_iff b).mp hab.2 with h | h <;>
          simp [h, Windows.IsPathSeparator]
    · left
      have : Windows.volumeNameLen (Windows.FromSlash (a :: b :: t)) = 0 := by
        rw [hF]
        apply volumeNameLen_eq_zero
        · simp only [List.getD_cons_succ, List.getD_cons_zero, not_and]
          intro _
          split_ifs with hbs
          · decide
          · exact hb
        · simp only [List.getD_cons_succ, List.getD_cons_zero]
          by_cases ha : Windows.IsPathSeparator a = true
          · right
            have hbn : Windows.IsPathSeparator b = false := by
              by_contra hc
              exact hab ⟨ha, by simpa using hc⟩
            have hbq : b ≠ question := by
              intro hq
              exact h3 ⟨by simpa using ha, by simp [hq]⟩
            have hbs : b ≠ slash := by
              intro hbs
              rw [hbs] at hbn
              exact absurd hbn (by decide)
            rw [if_neg hbs]
            exact ⟨hbn, hbq⟩
          · left
            have has : a ≠ slash := by
              intro has
              rw [has] at ha
              exact ha (by decide)
            rw [if_neg has]
            simpa using ha
      unfold Windows.VolumeName
      rw [this]
      simp [Windows.FromSlash, replaceByte, str_empty]

/-- Hierarchical form on any build: a path that `convertFileURLPath` returns is checked
for absoluteness. -/
theorem toFilePath_hier_ok (pf : Platform) (u : URL) (hs : u.Scheme = str "file")
    (hp : u.Path ≠ str "") (r : GoString)
    (hc : pf.convertFileURLPath u.Host u.Path = (r, none)) :
    ToFilePath pf u = checkAbs pf r := by
  simp [ToFilePath, hs, hp, hc]

/-- The no-host branch of Windows `convertFileURLPath`, for a path `/` followed by `q`. -/
theorem windows_convert_local (host q : GoString)
    (hh : host = str "" ∨ host = str "localhost") :
    Windows.convertFileURLPath host (slash :: q) =
      if Windows.VolumeName (Windows.FromSlash q) = str ""
          ∨ HasPrefix (Windows.VolumeName (Windows.FromSlash q)) (str "\\\\") = true then
        ([], some errMissingVolume)
      else
        (if q.length < 260 then Windows.FromSlash q
         else str "\\\\?\\" ++ Windows.Clean (Windows.FromSlash q), none) := by
  have hne : ¬ (slash :: q = str "" ∨ (slash :: q).getD 0 0 ≠ slash) := by
    simp [str_empty]
  have hhost : ¬ (host ≠ str "" ∧ host ≠ str "localhost") := by tauto
  have hlenq : (Windows.FromSlash q).length = q.length := by
    simp [Windows.FromSlash, replaceByte]
  unfold Windows.convertFileURLPath
  rw [if_neg hne]
  dsimp only
  rw [if_neg hhost, windows_fromSlash_cons_slash]
  simp only [List.drop_succ_cons, List.drop_zero]
  split_ifs with hbad hlen1 hlen2 <;> first
    | rfl
    | (exfalso; simp only [Windows.maxPath, hlenq] at hlen1; omega)

/-- Function `ToFilePath` on Windows for scheme `file`, host empty or `localhost`, and
path `/` followed by `q`. -/
theorem windows_toFilePath_local (u : URL) (q : GoString) (hs : u.Scheme = str "file")
    (hh : u.Host = str "" ∨ u.Host = str "localhost") (hp : u.Path = slash :: q) :
    ToFilePath windows u =
      if Windows.VolumeName (Windows.FromSlash q) = str ""
          ∨ HasPrefix (Windows.VolumeName (Windows.FromSlash q)) (str "\\\\") = true then
        ([], some errMissingVolume)
      else
        checkAbs windows
          (if q.length < 260 then Windows.FromSlash q
           else str "\\\\?\\" ++ Windows.Clean (Windows.FromSlash q)) := by
  have hc : windows.convertFileURLPath u.Host u.Path = _ :=
    hp ▸ windows_convert_local u.Host q hh
  have hpne : u.Path ≠ str "" := by rw [hp, str_empty]; simp
  by_cases hbad : Windows.VolumeName (Windows.FromSlash q) = str ""
      ∨ HasPrefix (Windows.VolumeName (Windows.FromSlash q)) (str "\\\\") = true
  · rw [if_pos hbad] at hc ⊢
    exact toFilePath_hier_error windows u hs hpne _ _ hc
  · rw [if_neg hbad] at hc ⊢
    exact toFilePath_hier_ok windows u hs hpne _ hc

/-- C13, as amended (Windows build): for every URL with scheme `file`, host empty or
`localhost`, and path `/` followed by `q`, `ToFilePath` returns `errMissingVolume`
exactly when `filepath.VolumeName` of `q` (with backslashes) is empty or starts with two
backslashes. That is so whenever byte 1 of `q` is not `':'` and `q` does not begin with
a separator followed by `'?'`; the first byte of `q` is not looked at for being a
letter. -/
theorem windows_missingVolume (u : URL) (q : GoString) (hs : u.Scheme = str "file")
    (hh : u.Host = str "" ∨ u.Host = str "localhost") (hp : u.Path = str "/" ++ q) :
    (ToFilePath windows u = ([], some errMissingVolume)
        ↔ (Windows.VolumeName (Windows.FromSlash q) = str ""
            ∨ HasPrefix (Windows.VolumeName (Windows.FromSlash q)) (str "\\\\") = true))
    ∧ (¬ (2 ≤ q.length ∧ q.getD 1 0 = colon) →
        ¬ (Windows.IsPathSeparator (q.getD 0 0) = true ∧ q.getD 1 0 = question) →
        ToFilePath windows u = ([], some errMissingVolume))
    ∧ errMissingVolume.text = str "file URL missing drive letter" := by
  have hT := windows_toFilePath_local u q hs hh (by rw [hp, str_slash]; rfl)
  have hiff : ToFilePath windows u = ([], some errMissingVolume)
      ↔ (Windows.VolumeName (Windows.FromSlash q) = str ""
          ∨ HasPrefix (Windows.VolumeName (Windows.FromSlash q)) (str "\\\\") = true) := by
    rw [hT]
    by_cases hbad : Windows.VolumeName (Windows.FromSlash q) = str ""
        ∨ HasPrefix (Windows.VolumeName (Windows.FromSlash q)) (str "\\\\") = true
    · rw [if_pos hbad]
      exact ⟨fun _ => hbad, fun _ => rfl⟩
    · rw [if_neg hbad, checkAbs_eq]
      simp only [hbad, iff_false]
      split_ifs <;> simp
  exact ⟨hiff, fun h1 h3 => hiff.mpr (windows_volumeName_bad q h1 h3), rfl⟩

/-- The URLs `file:////host/path`, `file://///host/path`, `file://///` and
`file:///Z|/invalid/path.txt` fail with `errMissingVolume`. -/
theorem windows_missingVolume_witness :
    ToFilePath windows { Scheme := str "file", Path := str "//host/path" }
        = ([], some errMissingVolume)
      ∧ ToFilePath windows { Scheme := str "file", Path := str "///host/path" }
        = ([], some errMissingVolume)
      ∧ ToFilePath windows { Scheme := str "file", Path := str "///" }
        = ([], some errMissingVolume)
      ∧ ToFilePath windows { Scheme := str "file", Path := str "/Z|/invalid/path.txt" }
        = ([], some errMissingVolume) :=
  ⟨(windows_missingVolume { Scheme := str "file", Path := str "//host/path" }
      (str "/host/path") (by decide) (by decide) (by decide)).2.1 (by decide) (by decide),
   (windows_missingVolume { Scheme := str "file", Path := str "///host/path" }
      (str "//host/path") (by decide) (by decide) (by decide)).2.1 (by decide) (by decide),
   (windows_missingVolume { Scheme := str "file", Path := str "///" }
      (str "//") (by decide) (by decide) (by decide)).2.1 (by decide) (by decide),
   (windows_missingVolume { Scheme := str "file", Path := str "/Z|/invalid/path.txt" }
      (str "Z|/invalid/path.txt") (by decide) (by decide) (by decide)).2.1
      (by decide) (by decide)⟩

/-- C13, as stated, fails on the Windows build: `file:///1:/dir`, where the byte before
`':'` is not an ASCII letter, is accepted and gives `1:\dir`; and `file:////??/C:/dir`
and `file:////:/dir`, whose paths begin with `//`, are accepted too. -/
theorem windows_missingVolume_counterexample :
    ToFilePath windows { Scheme := str "file", Path := str "/1:/dir" }
        = (str "1:\\dir", none)
      ∧ ToFilePath windows { Scheme := str "file", Path := str "//??/C:/dir" }
        = (str "\\??\\C:\\dir", none)
      ∧ ToFilePath windows { Scheme := str "file", Path := str "//:/dir" }
        = (str "\\:\\dir", none) := by
  decide

/-! ## Windows build: the extended-length prefix -/

/-- Windows `convertFileURLPath`: a path of 260 bytes or more that it returns starts
with the extended-length prefix. -/
theorem windows_convert_long (host path r : GoString)
    (h : Windows.convertFileURLPath host path = (r, none)) (hl : 260 ≤ r.length) :
    HasPrefix r (str "\\\\?\\") = true := by
  have hpre : ∀ x : GoString, HasPrefix (str "\\\\?\\" ++ x) (str "\\\\?\\") = true := by
    intro x
    simp [HasPrefix]
  have hpre2 : ∀ x : GoString, HasPrefix (str "\\\\?\\UNC" ++ x) (str "\\\\?\\") = true := by
    intro x
    have e : str "\\\\?\\UNC" = str "\\\\?\\" ++ str "UNC" := by decide
    rw [e, List.append_assoc]
    exact hpre _
  unfold Windows.convertFileURLPath at h
  dsimp only at h
  split_ifs at h with h1 h2 h3 h4 h5 h6 h7
  all_goals first
    | (simp at h; done)
    | (simp only [Prod.mk.injEq, and_true] at h
       subst h
       first
         | exact hpre _
         | exact hpre2 _
         | (exfalso; simp only [Windows.maxPath] at *; omega))

set_option maxRecDepth 1000000 in
/-- C14, failing input (Windows build): `ToFilePath` turns
`file:///C:/long.../abX.txt` (50 times `/long`) into `\\?\C:\long...\abX.txt`, and
`FromFilePath` of that path returns host `?` and path `/C:/long.../abX.txt`, not an
empty host; likewise `file://server/share/long.../fileaX.txt` becomes
`\\?\UNC\server\share\long...\fileaX.txt`, of which `FromFilePath` returns host `?` and
path `/UNC/server/share/long.../fileaX.txt`, not host `server` and path `/share/...`. -/
theorem windows_fromFilePath_extended :
    ToFilePath windows
        { Scheme := str "file", Path := str "/C:" ++ Repeat (str "/long") 50 ++ str "/abX.txt" }
      = (str "\\\\?\\C:" ++ Repeat (str "\\long") 50 ++ str "\\abX.txt", none)
    ∧ FromFilePath windows (str "\\\\?\\C:" ++ Repeat (str "\\long") 50 ++ str "\\abX.txt")
      = (some { Scheme := str "file", Host := str "?",
                Path := str "/C:" ++ Repeat (str "/long") 50 ++ str "/abX.txt" }, none)
    ∧ ToFilePath windows
        { Scheme := str "file", Host := str "server",
          Path := str "/share" ++ Repeat (str "/long") 47 ++ str "/fileaX.txt" }
      = (str "\\\\?\\UNC\\server\\share" ++ Repeat (str "\\long") 47 ++ str "\\fileaX.txt",
         none)
    ∧ FromFilePath windows
        (str "\\\\?\\UNC\\server\\share" ++ Repeat (str "\\long") 47 ++ str "\\fileaX.txt")
      = (some { Scheme := str "file", Host := str "?",
                Path := str "/UNC/server/share" ++ Repeat (str "/long") 47
                  ++ str "/fileaX.txt" }, none) := by
  refine ⟨?_, ?_, ?_, ?_⟩ <;> decide

set_option maxRecDepth 1000000 in
/-- C18, failing input (Windows build): the opaque URL `file:C:/long...` with 52 times
`/long` is accepted and returned as `C:\long...`, 262 bytes without the extended-length
prefix, while the hierarchical URL `file:///C:/long...` with the same path is returned
as `\\?\C:\long...`. -/
theorem windows_opaqueForm_long :
    ToFilePath windows { Scheme := str "file", Opaque := str "C:" ++ Repeat (str "/long") 52 }
      = (str "C:" ++ Repeat (str "\\long") 52, none)
    ∧ (str "C:" ++ Repeat (str "\\long") 52).length = 262
    ∧ HasPrefix (str "C:" ++ Repeat (str "\\long") 52) (str "\\\\?\\") = false
    ∧ ToFilePath windows { Scheme := str "file", Path := str "/C:" ++ Repeat (str "/long") 52 }
      = (str "\\\\?\\C:" ++ Repeat (str "\\long") 52, none) := by
  refine ⟨?_, ?_, ?_, ?_⟩ <;> decide

/-- Hierarchical form on Windows: every path of 260 bytes or more that `ToFilePath`
returns for a URL with a non-empty path starts with the extended-length prefix. -/
theorem windows_hier_long (u : URL) (r : GoString) (hp : u.Path ≠ str "")
    (h : ToFilePath windows u = (r, none)) (hl : 260 ≤ r.length) :
    HasPrefix r (str "\\\\?\\") = true := by
  by_cases hs : u.Scheme = str "file"
  · rcases hc : windows.convertFileURLPath u.Host u.Path with ⟨x, e⟩
    cases e with
    | some e =>
      rw [toFilePath_hier_error windows u hs hp x e hc] at h
      simp at h
    | none =>
      rw [toFilePath_hier_ok windows u hs hp x hc, checkAbs_eq] at h
      split_ifs at h with h4
      · simp only [Prod.mk.injEq, and_true] at h
        subst h
        exact windows_convert_long u.Host u.Path _ hc hl
      · simp at h
  · simp [ToFilePath, hs] at h

/-- C16, as amended (Windows build): the length check that triggers the
extended-length prefix counts bytes. For every accepted URL with scheme `file`, empty
host and path `/` followed by a drive-letter path `q` (`filepath.VolumeName` of `q` is
non-empty and does not start with two backslashes), `ToFilePath` returns the path with
the `\\?\` prefix if and only if `q` has 260 bytes or more: with fewer bytes the result
is `FromSlash q`, otherwise it is the prefix followed by `filepath.Clean (FromSlash q)`. -/
theorem windows_longPath_bytes (u : URL) (q r : GoString) (hs : u.Scheme = str "file")
    (hh : u.Host = str "") (hp : u.Path = str "/" ++ q)
    (hv : Windows.VolumeName (Windows.FromSlash q) ≠ str "")
    (hu : HasPrefix (Windows.VolumeName (Windows.FromSlash q)) (str "\\\\") = false)
    (hok : ToFilePath windows u = (r, none)) :
    (HasPrefix r (str "\\\\?\\") = true ↔ 260 ≤ q.length)
      ∧ (q.length < 260 → r = Windows.FromSlash q)
      ∧ (260 ≤ q.length → r = str "\\\\?\\" ++ Windows.Clean (Windows.FromSlash q)) := by
  have hT := windows_toFilePath_local u q hs (Or.inl hh) (by rw [hp, str_slash]; rfl)
  rw [if_neg (by simp [hv, hu]), checkAbs_eq, hok] at hT
  by_cases hlen : q.length < 260
  · rw [if_pos hlen] at hT
    have hr : r = Windows.FromSlash q := by
      split_ifs at hT with h1
      · exact (Prod.mk.inj hT).1
      · exact absurd (Prod.mk.inj hT).2 (by simp)
    refine ⟨?_, fun _ => hr, fun h => absurd hlen (by omega)⟩
    have hno : HasPrefix r (str "\\\\?\\") = false := by
      cases hP : HasPrefix r (str "\\\\?\\") with
      | false => rfl
      | true =>
        have h1 : str "\\\\?\\" <+: r := by simpa [HasPrefix] using hP
        obtain ⟨t, ht⟩ := h1
        have e : str "\\\\?\\" = backslash :: backslash :: str "?\\" := by decide
        have hq : Windows.FromSlash q = backslash :: backslash :: (str "?\\" ++ t) := by
          rw [← hr, ← ht, e]; rfl
        have := (windows_volumeName_unc (str "?\\" ++ t)).2
        rw [← hq, hu] at this
        exact absurd this (by simp)
    rw [hno]
    constructor
    · intro h; exact absurd h (by simp)
    · intro h; omega
  · rw [if_neg hlen] at hT
    have hr : r = str "\\\\?\\" ++ Windows.Clean (Windows.FromSlash q) := by
      split_ifs at hT with h1
      · exact (Prod.mk.inj hT).1
      · exact absurd (Prod.mk.inj hT).2 (by simp)
    refine ⟨?_, fun h => absurd h hlen, fun _ => hr⟩
    have hyes : HasPrefix r (str "\\\\?\\") = true := by
      rw [hr]; simp [HasPrefix]
    rw [hyes]
    exact ⟨fun _ => by omega, fun _ => rfl⟩

set_option maxRecDepth 1000000 in
/-- The URL path `/C:/` followed by 86 times the 3-byte character U+3113 has 89
characters after its leading `/` but 261 bytes: it is returned with the prefix. -/
theorem windows_longPath_bytes_witness :
    codePoints (str "C:/" ++ Repeat (str "ㄓ") 86) = 89
      ∧ (str "C:/" ++ Repeat (str "ㄓ") 86).length = 261
      ∧ ToFilePath windows
          { Scheme := str "file", Path := str "/" ++ (str "C:/" ++ Repeat (str "ㄓ") 86) }
        = (str "\\\\?\\C:\\" ++ Repeat (str "ㄓ") 86, none)
      ∧ HasPrefix (str "\\\\?\\C:\\" ++ Repeat (str "ㄓ") 86) (str "\\\\?\\") = true :=
  ⟨by decide, by decide, by decide,
   (windows_longPath_bytes
      { Scheme := str "file", Path := str "/" ++ (str "C:/" ++ Repeat (str "ㄓ") 86) }
      (str "C:/" ++ Repeat (str "ㄓ") 86) (str "\\\\?\\C:\\" ++ Repeat (str "ㄓ") 86)
      (by decide) (by decide) (by decide) (by decide) (by decide) (by decide)).1.2
      (by decide)⟩

set_option maxRecDepth 1000000 in
/-- C16, as stated, fails on the Windows build: the accepted URL whose path is `/C:/`
followed by 86 times the 3-byte character U+3113 has fewer than 260 characters after
the leading `/` (89 code points, 89 UTF-16 units), yet it is returned with the `\\?\`
prefix, because it has 261 bytes. -/
theorem windows_longPath_counterexample :
    codePoints (str "C:/" ++ Repeat (str "ㄓ") 86) < 260
      ∧ ToFilePath windows
          { Scheme := str "file", Path := str "/C:/" ++ Repeat (str "ㄓ") 86 }
        = (str "\\\\?\\C:\\" ++ Repeat (str "ㄓ") 86, none)
      ∧ HasPrefix (str "\\\\?\\C:\\" ++ Repeat (str "ㄓ") 86) (str "\\\\?\\") = true := by
  refine ⟨?_, ?_, ?_⟩ <;> decide

/-! ## Windows build: `filepath.Clean` and the elements of a path -/

/-- Loop of `segments`: a separator ends the segment read so far. -/
theorem segmentsFrom_append_sep (f : Nat → Bool) (c : Nat) (hc : f c = true)
    (s t cur : GoString) :
    segmentsFrom f cur (s ++ c :: t) = segmentsFrom f cur s ++ segmentsFrom f [] t := by
  induction s generalizing cur with
  | nil =>
    simp only [List.nil_append, segmentsFrom, hc, if_true]
    split_ifs <;> simp
  | cons a s ih =>
    simp only [List.cons_append, segmentsFrom]
    split_ifs <;> simp [ih]

/-- Loop of `segments`: a run without separators is one segment. -/
theorem segmentsFrom_run (f : Nat → Bool) (e cur : GoString)
    (he : ∀ x ∈ e, f x = false) :
    segmentsFrom f cur e = if cur ++ e = [] then [] else [cur ++ e] := by
  induction e generalizing cur with
  | nil => simp [segmentsFrom]
  | cons a e ih =>
    have ha : f a = false := he a (List.mem_cons_self _ _)
    simp only [segmentsFrom, ha, Bool.false_eq_true, if_false]
    rw [ih _ (fun x hx => he x (List.mem_cons_of_mem _ hx))]
    simp

/-- A leading separator adds no segment. -/
theorem segments_cons_sep (f : Nat → Bool) (c : Nat) (hc : f c = true) (t : GoString) :
    segments f (c :: t) = segments f t := by
  simp [segments, segmentsFrom, hc]

/-- Segments of two parts joined at a separator. -/
theorem segments_append_sep (f : Nat → Bool) (c : Nat) (hc : f c = true) (s t : GoString) :
    segments f (s ++ c :: t) = segments f s ++ segments f t :=
  segmentsFrom_append_sep f c hc s t []

/-- Segments of a part followed by a separator and a run without separators. -/
theorem segments_append_sep_run (f : Nat → Bool) (c : Nat) (hc : f c = true)
    (s e : GoString) (he : ∀ x ∈ e, f x = false) (hne : e ≠ []) :
    segments f (s ++ c :: e) = segments f s ++ [e] := by
  rw [segments_append_sep f c hc, segments, segments, segmentsFrom_run f e [] he]
  simp [hne]

/-- Segments of a run without separators followed by the rest, which is empty or
starts with a separator. -/
theorem segments_run_append (f : Nat → Bool) (e rest : GoString)
    (he : ∀ x ∈ e, f x = false) (hne : e ≠ [])
    (hrest : rest = [] ∨ ∃ c t, rest = c :: t ∧ f c = true) :
    segments f (e ++ rest) = e :: segments f rest := by
  rcases hrest with rfl | ⟨c, t, rfl, hc⟩
  · rw [List.append_nil, segments, segmentsFrom_run f e [] he]
    simp [hne, segments, segmentsFrom]
  · rw [segments_append_sep f c hc, segments_cons_sep f c hc, segments,
      segmentsFrom_run f e [] he]
    simp [hne, segments]

/-- Writing index `w` of a list and keeping `w + 1` elements. -/
theorem take_set_succ (l : List Nat) (w c : Nat) (h : w < l.length) :
    (l.set w c).take (w + 1) = l.take w ++ [c] := by
  induction l generalizing w with
  | nil => simp at h
  | cons a l ih =>
    cases w with
    | zero => simp
    | succ w =>
      simp only [List.length_cons, Nat.add_lt_add_iff_right] at h
      simp [ih w h]

/-- Method `(*lazybuf).append` adds one byte to what the buffer holds. -/
theorem lazybuf_append (b : Windows.lazybuf) (c : Nat) (hw : b.w < b.path.length)
    (hb : b.inBounds) :
    (b.append c).contents = b.contents ++ [c] ∧ (b.append c).inBounds
      ∧ (b.append c).w = b.w + 1 ∧ (b.append c).path = b.path
      ∧ (b.append c).volAndPath = b.volAndPath ∧ (b.append c).volLen = b.volLen := by
  obtain ⟨_, hbuf⟩ := hb
  unfold Windows.lazybuf.append
  cases hB : b.buf with
  | none =>
    dsimp only
    split_ifs with hm
    · refine ⟨?_, ⟨by simpa using hw, by simp [hB]⟩, rfl, rfl, rfl, rfl⟩
      simp only [Windows.lazybuf.contents, hB]
      rw [List.take_succ, List.getElem?_eq_getElem hw]
      have : b.path[b.w] = c := by
        rw [← hm.2, List.getD_eq_getElem _ _ hw]
      simp [this]
    · refine ⟨?_, ⟨by simpa using hw, ?_⟩, rfl, rfl, rfl, rfl⟩
      · simp only [Windows.lazybuf.contents, hB]
        rw [take_set_succ _ _ _ (by simp; omega)]
        rw [List.take_append_of_le_length (by simp; omega)]
        simp
      · intro buf hbuf'
        simp only [Option.some.injEq] at hbuf'
        rw [← hbuf']
        simp
        omega
  | some buf =>
    have hlen := hbuf buf hB
    dsimp only
    refine ⟨?_, ⟨by simpa using hw, ?_⟩, rfl, rfl, rfl, rfl⟩
    · simp only [Windows.lazybuf.contents, hB]
      exact take_set_succ _ _ _ (by omega)
    · intro buf' hbuf'
      simp only [Option.some.injEq] at hbuf'
      rw [← hbuf']
      simpa using hlen

/-- Appending a run of bytes one by one. -/
theorem lazybuf_appendAll (e : GoString) (b : Windows.lazybuf)
    (hw : b.w + e.length ≤ b.path.length) (hb : b.inBounds) :
    (e.foldl Windows.lazybuf.append b).contents = b.contents ++ e
      ∧ (e.foldl Windows.lazybuf.append b).inBounds
      ∧ (e.foldl Windows.lazybuf.append b).w = b.w + e.length
      ∧ (e.foldl Windows.lazybuf.append b).path = b.path
      ∧ (e.foldl Windows.lazybuf.append b).volAndPath = b.volAndPath
      ∧ (e.foldl Windows.lazybuf.append b).volLen = b.volLen := by
  induction e generalizing b with
  | nil => exact ⟨by simp, hb, rfl, rfl, rfl, rfl⟩
  | cons a e ih =>
    simp only [List.length_cons] at hw
    obtain ⟨h1, h2, h3, h4, h5, h6⟩ := lazybuf_append b a (by omega) hb
    obtain ⟨k1, k2, k3, k4, k5, k6⟩ := ih (b.append a) (by rw [h3, h4]; omega) h2
    simp only [List.foldl_cons]
    refine ⟨?_, k2, ?_, k4.trans h4, k5.trans h5, k6.trans h6⟩
    · rw [k1, h1]; simp
    · rw [k3, h3]; simp only [List.length_cons]; omega

/-- The copy loop of `Clean` copies the run before the next separator. -/
theorem copyElement_run (e rest : GoString) (r : Nat) (out : Windows.lazybuf)
    (he : ∀ x ∈ e, Windows.IsPathSeparator x = false)
    (hrest : rest = [] ∨ ∃ c t, rest = c :: t ∧ Windows.IsPathSeparator c = true) :
    Windows.copyElement (e ++ rest) r out
      = (r + e.length, e.foldl Windows.lazybuf.append out) := by
  induction e generalizing r out with
  | nil =>
    rcases hrest with rfl | ⟨c, t, rfl, hc⟩
    · simp [Windows.copyElement]
    · simp [Windows.copyElement, hc]
  | cons a e ih =>
    have ha : Windows.IsPathSeparator a = false := he a (List.mem_cons_self _ _)
    simp only [List.cons_append, Windows.copyElement, ha, Bool.false_eq_true, if_false,
      List.foldl_cons, List.length_cons, List.append_eq]
    rw [ih (r + 1) (out.append a) (fun x hx => he x (List.mem_cons_of_mem _ hx))]
    congr 1
    omega

/-- Byte `k` of the rest of a list from index `r` on. -/
theorem getD_of_drop (l rest : List Nat) (r k : Nat) (h : l.drop r = rest) :
    l.getD (r + k) 0 = rest.getD k 0 := by
  subst h
  simp [List.getD_eq_getElem?_getD, List.getElem?_drop]

/-- The main loop of `Clean` skips a separator. -/
theorem cleanStep_sep (path : GoString) (n : Nat) (rooted : Bool) (r dotdot : Nat)
    (out : Windows.lazybuf) (c : Nat) (rest : GoString) (h : path.drop r = c :: rest)
    (hc : Windows.IsPathSeparator c = true) :
    Windows.cleanStep path n rooted r dotdot out = (r + 1, dotdot, out) := by
  have h0 : path.getD r 0 = c := by
    have := getD_of_drop path _ r 0 h
    simpa using this
  unfold Windows.cleanStep
  rw [h0, if_pos hc]

/-- The main loop of `Clean`, rooted path, at a path element that is neither `.` nor
`..`: a separator is written unless nothing was written after the root, and the
element is copied. -/
theorem cleanStep_element (path : GoString) (r dotdot : Nat) (out : Windows.lazybuf)
    (e rest : GoString) (h : path.drop r = e ++ rest) (hne : e ≠ [])
    (he : ∀ x ∈ e, Windows.IsPathSeparator x = false)
    (hrest : rest = [] ∨ ∃ c t, rest = c :: t ∧ Windows.IsPathSeparator c = true)
    (hd1 : e ≠ [dot]) (hd2 : e ≠ [dot, dot]) :
    Windows.cleanStep path path.length true r dotdot out
      = (r + e.length, dotdot,
         e.foldl Windows.lazybuf.append (if out.w ≠ 1 then out.append backslash else out)) := by
  have hlen : (e ++ rest).length = path.length - r := by
    rw [← h, List.length_drop]
  have g0 := getD_of_drop path _ r 0 h
  have g1 := getD_of_drop path _ r 1 h
  have g2 := getD_of_drop path _ r 2 h
  match e, hne, he, hd1, hd2, h, hlen, g0, g1, g2 with
  | [], hne, _, _, _, _, _, _, _, _ => exact absurd rfl hne
  | [a], _, he, hd1, _, h, hlen, g0, g1, g2 =>
    have ha : Windows.IsPathSeparator a = false := he a (by simp)
    have had : a ≠ dot := fun hh => hd1 (by rw [hh])
    simp only [List.singleton_append, List.getD_cons_zero, Nat.add_zero] at g0
    unfold Windows.cleanStep
    rw [g0, if_neg (by simp [ha]), if_neg (by simp [had]), if_neg (by simp [had])]
    dsimp only
    rw [h]
    rw [copyElement_run [a] rest r _ he hrest]
    simp
  | [a, b], _, he, hd1, hd2, h, hlen, g0, g1, g2 =>
    have ha : Windows.IsPathSeparator a = false := he a (by simp)
    have hb : Windows.IsPathSeparator b = false := he b (by simp)
    simp only [List.cons_append, List.nil_append, List.getD_cons_zero, List.getD_cons_succ,
      Nat.add_zero] at g0 g1
    simp only [List.cons_append, List.nil_append, List.length_cons] at hlen
    have c2 : ¬ (path.getD r 0 = dot
        ∧ (r + 1 = path.length ∨ Windows.IsPathSeparator (path.getD (r + 1) 0) = true)) := by
      rw [g1, hb]
      rintro ⟨_, h1 | h1⟩
      · omega
      · simp at h1
    have c3 : ¬ (path.getD r 0 = dot ∧ path.getD (r + 1) 0 = dot
        ∧ (r + 2 = path.length ∨ Windows.IsPathSeparator (path.getD (r + 2) 0) = true)) := by
      rw [g0, g1]
      rintro ⟨h1, h2, _⟩
      exact hd2 (by rw [h1, h2])
    unfold Windows.cleanStep
    rw [if_neg (by rw [g0]; simp [ha]), if_neg c2, if_neg c3]
    dsimp only
    rw [h]
    rw [copyElement_run [a, b] rest r _ he hrest]
    simp
  | a :: b :: c :: e, _, he, _, _, h, hlen, g0, g1, g2 =>
    have ha : Windows.IsPathSeparator a = false := he a (by simp)
    have hb : Windows.IsPathSeparator b = false := he b (by simp)
    have hc : Windows.IsPathSeparator c = false := he c (by simp)
    simp only [List.cons_append, List.getD_cons_zero, List.getD_cons_succ,
      Nat.add_zero] at g0 g1 g2
    simp only [List.cons_append, List.length_cons] at hlen
    have c2 : ¬ (path.getD r 0 = dot
        ∧ (r + 1 = path.length ∨ Windows.IsPathSeparator (path.getD (r + 1) 0) = true)) := by
      rw [g1, hb]
      rintro ⟨_, h1 | h1⟩
      · omega
      · simp at h1
    have c3 : ¬ (path.getD r 0 = dot ∧ path.getD (r + 1) 0 = dot
        ∧ (r + 2 = path.length ∨ Windows.IsPathSeparator (path.getD (r + 2) 0) = true)) := by
      rw [g2, hc]
      rintro ⟨_, _, h1 | h1⟩
      · omega
      · simp at h1
    unfold Windows.cleanStep
    rw [if_neg (by rw [g0]; simp [ha]), if_neg c2, if_neg c3]
    dsimp only
    rw [h]
    rw [copyElement_run (a :: b :: c :: e) rest r _ he hrest]
    simp

/-- A byte that is not a separator starts a run that ends at the next separator or at
the end. -/
theorem split_run (c : Nat) (rest1 : GoString) (hc : Windows.IsPathSeparator c = false) :
    ∃ e rest, c :: rest1 = e ++ rest ∧ e ≠ []
      ∧ (∀ x ∈ e, Windows.IsPathSeparator x = false)
      ∧ (rest = [] ∨ ∃ d t, rest = d :: t ∧ Windows.IsPathSeparator d = true) := by
  induction rest1 generalizing c with
  | nil => exact ⟨[c], [], rfl, by simp, by simpa using hc, Or.inl rfl⟩
  | cons d t ih =>
    by_cases hd : Windows.IsPathSeparator d = true
    · exact ⟨[c], d :: t, rfl, by simp, by simpa using hc, Or.inr ⟨d, t, rfl, hd⟩⟩
    · obtain ⟨e, rest, h1, _, h3, h4⟩ := ih d (by simpa using hd)
      refine ⟨c :: e, rest, by rw [h1]; rfl, by simp, ?_, h4⟩
      intro x hx
      rcases List.mem_cons.mp hx with rfl | hx
      · exact hc
      · exact h3 x hx

/-- The main loop of `Clean` on a rooted path without `.` and `..` elements keeps the
sequence of path elements: what the buffer holds at the end has the segments it held
before, followed by the segments of the rest of the path. -/
theorem cleanLoop_dotFree (path : GoString) (fuel r dotdot : Nat) (out : Windows.lazybuf)
    (rest : GoString) (h : path.drop r = rest) (hf : rest.length ≤ fuel)
    (hp : out.path = path) (hb : out.inBounds) (hwr : out.w ≤ r)
    (hk : (out.w = 1 ∧ out.contents = [backslash])
      ∨ (2 ≤ out.w ∧ ∀ c t, rest = c :: t → Windows.IsPathSeparator c = false → out.w < r))
    (hd : ∀ seg ∈ segments Windows.IsPathSeparator rest, seg ≠ [dot] ∧ seg ≠ [dot, dot]) :
    1 ≤ (Windows.cleanLoop path path.length true fuel r dotdot out).w
      ∧ (Windows.cleanLoop path path.length true fuel r dotdot out).volAndPath
          = out.volAndPath
      ∧ (Windows.cleanLoop path path.length true fuel r dotdot out).volLen = out.volLen
      ∧ (Windows.cleanLoop path path.length true fuel r dotdot out).path = out.path
      ∧ (∃ t, (Windows.cleanLoop path path.length true fuel r dotdot out).contents
          = out.contents ++ t)
      ∧ segments Windows.IsPathSeparator
          (Windows.cleanLoop path path.length true fuel r dotdot out).contents
        = segments Windows.IsPathSeparator out.contents
            ++ segments Windows.IsPathSeparator rest := by
  have hw1 : 1 ≤ out.w := by
    rcases hk with ⟨h1, _⟩ | ⟨h1, _⟩ <;> omega
  have hlen : rest.length = path.length - r := by rw [← h, List.length_drop]
  induction fuel generalizing r dotdot out rest with
  | zero =>
    have hnil : rest = [] := List.length_eq_zero.mp (by omega)
    subst hnil
    have e0 : Windows.cleanLoop path path.length true 0 r dotdot out = out := rfl
    rw [e0]
    exact ⟨hw1, rfl, rfl, rfl, ⟨[], by simp⟩, by simp [segments, segmentsFrom]⟩
  | succ fuel ih =>
    cases rest with
    | nil =>
      simp only [Windows.cleanLoop]
      rw [if_neg (by simp at hlen; omega)]
      exact ⟨hw1, rfl, rfl, rfl, ⟨[], by simp⟩, by simp [segments, segmentsFrom]⟩
    | cons c rest1 =>
      have hr : r < path.length := by simp at hlen; omega
      simp only [Windows.cleanLoop]
      rw [if_pos hr]
      by_cases hc : Windows.IsPathSeparator c = true
      · rw [cleanStep_sep path _ true r dotdot out c rest1 h hc]
        dsimp only
        have h' : path.drop (r + 1) = rest1 := by
          have := congrArg (List.drop 1) h
          simpa [List.drop_drop, Nat.add_comm] using this
        have hk' : (out.w = 1 ∧ out.contents = [backslash])
            ∨ (2 ≤ out.w ∧ ∀ c t, rest1 = c :: t → Windows.IsPathSeparator c = false →
                out.w < r + 1) := by
          rcases hk with hk | ⟨hk, _⟩
          · exact Or.inl hk
          · exact Or.inr ⟨hk, fun _ _ _ _ => by omega⟩
        have hseg := segments_cons_sep Windows.IsPathSeparator c hc rest1
        have := ih (r + 1) dotdot out rest1 h' (by simp at hf; omega) hp hb (by omega) hk'
          (by rw [← hseg]; exact hd) hw1 (by rw [← h', List.length_drop])
        rw [hseg]
        exact this
      · obtain ⟨e, rest', hsplit, hne, he, hrest'⟩ := split_run c rest1 (by simpa using hc)
        rw [hsplit] at h hd hlen hf ⊢
        have hsegs := segments_run_append Windows.IsPathSeparator e rest' he hne hrest'
        have hde := hd e (by rw [hsegs]; exact List.mem_cons_self _ _)
        rw [cleanStep_element path r dotdot out e rest' h hne he hrest' hde.1 hde.2]
        dsimp only
        have helen : 1 ≤ e.length := by
          cases e with
          | nil => exact absurd rfl hne
          | cons _ _ => simp
        simp only [List.length_append] at hlen hf
        have h' : path.drop (r + e.length) = rest' := by
          have := congrArg (List.drop e.length) h
          simpa [List.drop_drop, Nat.add_comm] using this
        -- the buffer after the separator, if one is written
        have hout1 : ∃ out1 : Windows.lazybuf,
            (if out.w ≠ 1 then out.append backslash else out) = out1
            ∧ out1.inBounds ∧ out1.path = path ∧ out1.volAndPath = out.volAndPath
            ∧ out1.volLen = out.volLen ∧ out1.w + e.length ≤ r + e.length
            ∧ 1 ≤ out1.w
            ∧ (∃ t, out1.contents = out.contents ++ t)
            ∧ segments Windows.IsPathSeparator (out1.contents ++ e)
              = segments Windows.IsPathSeparator out.contents ++ [e] := by
          rcases hk with ⟨hk1, hk2⟩ | ⟨hk1, hk2⟩
          · refine ⟨out, by rw [if_neg (by simp [hk1])], hb, hp, rfl, rfl, by omega, hw1,
              ⟨[], by simp⟩, ?_⟩
            rw [hk2]
            have := segments_append_sep_run Windows.IsPathSeparator backslash (by decide)
              [] e he hne
            simpa [segments, segmentsFrom, Windows.IsPathSeparator] using this
          · have hlt : out.w < r := by
              cases e with
              | nil => exact absurd rfl hne
              | cons a e' =>
                simp only [List.cons_append, List.cons.injEq] at hsplit
                exact hk2 c rest1 rfl (by simpa using hc)
            obtain ⟨a1, a2, a3, a4, a5, a6⟩ :=
              lazybuf_append out backslash (by rw [hp]; omega) hb
            refine ⟨out.append backslash, by rw [if_pos (by omega)], a2, a4.trans hp, a5, a6,
              by rw [a3]; omega, by rw [a3]; omega, ⟨[backslash], a1⟩, ?_⟩
            rw [a1, List.append_assoc]
            exact segments_append_sep_run Windows.IsPathSeparator backslash (by decide)
              _ e he hne
        obtain ⟨out1, ho1, b1, b2, b3, b4, b5, b6, ⟨t1, b7⟩, b8⟩ := hout1
        rw [ho1]
        obtain ⟨k1, k2, k3, k4, k5, k6⟩ :=
          lazybuf_appendAll e out1 (by rw [b2]; omega) b1
        have hk' : ((e.foldl Windows.lazybuf.append out1).w = 1
              ∧ (e.foldl Windows.lazybuf.append out1).contents = [backslash])
            ∨ (2 ≤ (e.foldl Windows.lazybuf.append out1).w
              ∧ ∀ c t, rest' = c :: t → Windows.IsPathSeparator c = false →
                (e.foldl Windows.lazybuf.append out1).w < r + e.length) := by
          right
          refine ⟨by rw [k3]; omega, ?_⟩
          intro c' t' hc' hs'
          rcases hrest' with rfl | ⟨d, t, rfl, hd'⟩
          · simp at hc'
          · simp only [List.cons.injEq] at hc'
            rw [← hc'.1, hd'] at hs'
            simp at hs'
        have := ih (r + e.length) dotdot (e.foldl Windows.lazybuf.append out1) rest' h'
          (by omega) (k4.trans b2) k2 (by rw [k3]; omega) hk'
          (fun seg hs => hd seg (by rw [hsegs]; exact List.mem_cons_of_mem _ hs))
          (by rw [k3]; omega) (by rw [← h', List.length_drop])
        obtain ⟨r1, r2, r3, r6, ⟨t2, r4⟩, r5⟩ := this
        refine ⟨r1, r2.trans (k5.trans b3), r3.trans (k6.trans b4),
          r6.trans (k4.trans (b2.trans hp.symm)), ⟨t1 ++ e ++ t2, ?_⟩, ?_⟩
        · rw [r4, k1, b7]; simp
        · rw [r5, k1, b8, hsegs]; simp


/-- Windows `FromSlash` does not change the segments of a path. -/
theorem segmentsFrom_fromSlash (x cur : GoString) :
    segmentsFrom Windows.IsPathSeparator cur (Windows.FromSlash x)
      = segmentsFrom Windows.IsPathSeparator cur x := by
  induction x generalizing cur with
  | nil => rfl
  | cons a x ih =>
    have hF : Windows.FromSlash (a :: x)
        = (if a = slash then backslash else a) :: Windows.FromSlash x := by
      simp [Windows.FromSlash, replaceByte]
    rw [hF]
    by_cases ha : a = slash
    · subst ha
      simp only [if_true, segmentsFrom, show Windows.IsPathSeparator backslash = true by decide,
        show Windows.IsPathSeparator slash = true by decide, ih]
    · simp only [if_neg ha, segmentsFrom, ih]

/-- On a string without a backslash, the Windows separators and `'/'` give the same
segments. -/
theorem segmentsFrom_isSlash (x cur : GoString) (hx : backslash ∉ x) :
    segmentsFrom Windows.IsPathSeparator cur x = segmentsFrom isSlash cur x := by
  induction x generalizing cur with
  | nil => rfl
  | cons a x ih =>
    simp only [List.mem_cons, not_or] at hx
    have ha : Windows.IsPathSeparator a = isSlash a := by
      have : a ≠ backslash := fun e => hx.1 e.symm
      simp [Windows.IsPathSeparator, isSlash, this]
    simp only [segmentsFrom, ha, ih _ hx.2]

/-- Windows `postClean` leaves a path with a volume name alone. -/
theorem postClean_volume (out : Windows.lazybuf) (h : out.volLen ≠ 0) :
    Windows.postClean out = out := by
  unfold Windows.postClean
  cases out.buf with
  | none => rfl
  | some buf => simp [h]

/-- Method `(*lazybuf).string`: the volume name followed by what the buffer holds. -/
theorem lazybuf_string (b : Windows.lazybuf) (hp : b.path = b.volAndPath.drop b.volLen) :
    b.string = b.volAndPath.take b.volLen ++ b.contents := by
  unfold Windows.lazybuf.string Windows.lazybuf.contents
  cases b.buf with
  | none =>
    dsimp only
    rw [hp, List.take_add]
  | some buf => rfl

/-- Windows `Clean` keeps the sequence of path elements of a rooted path that has a
volume name and no `.` or `..` element after it. -/
theorem clean_segments (p : GoString) (c : Nat) (rest0 : GoString)
    (hl : Windows.volumeNameLen p ≠ 0)
    (hpath : p.drop (Windows.volumeNameLen p) = c :: rest0)
    (hc : Windows.IsPathSeparator c = true)
    (hd : ∀ seg ∈ segments Windows.IsPathSeparator rest0, seg ≠ [dot] ∧ seg ≠ [dot, dot]) :
    segments Windows.IsPathSeparator (Windows.Clean p)
      = segments Windows.IsPathSeparator p := by
  have hpne : ¬ (p.drop (Windows.volumeNameLen p) = str "") := by
    rw [hpath, str_empty]; simp
  have hroot : Windows.IsPathSeparator ((p.drop (Windows.volumeNameLen p)).getD 0 0) = true := by
    rw [hpath]; simpa using hc
  have hrest : (p.drop (Windows.volumeNameLen p)).drop 1 = rest0 := by rw [hpath]; rfl
  have hp : p = p.take (Windows.volumeNameLen p) ++ c :: rest0 := by
    rw [← hpath, List.take_append_drop]
  unfold Windows.Clean
  dsimp only
  rw [if_neg hpne]
  simp only [hroot, if_true]
  obtain ⟨out0, hout0⟩ : ∃ o : Windows.lazybuf, o =
      { path := p.drop (Windows.volumeNameLen p), buf := none, w := 0, volAndPath := p,
        volLen := Windows.volumeNameLen p } := ⟨_, rfl⟩
  rw [← hout0]
  have hp0 : out0.path = p.drop (Windows.volumeNameLen p) := by rw [hout0]
  have hv0 : out0.volAndPath = p := by rw [hout0]
  have hl0 : out0.volLen = Windows.volumeNameLen p := by rw [hout0]
  have hc0 : out0.contents = [] := by rw [hout0]; rfl
  have hb0 : out0.inBounds := by
    rw [hout0]
    exact ⟨Nat.zero_le _, fun buf h => by simp at h⟩
  have hlen0 : out0.w < out0.path.length := by
    rw [hp0, hpath, hout0]; simp
  obtain ⟨a1, a2, a3, a4, a5, a6⟩ := lazybuf_append out0 backslash hlen0 hb0
  have hw1 : (out0.append backslash).w = 1 := by rw [a3, hout0]
  have hloop := cleanLoop_dotFree (p.drop (Windows.volumeNameLen p))
    (p.drop (Windows.volumeNameLen p)).length 1 1 (out0.append backslash) rest0 hrest
    (by rw [hpath]; simp) (a4.trans hp0) a2 (by rw [hw1]) (Or.inl ⟨hw1, by rw [a1, hc0]; rfl⟩) hd
  obtain ⟨r1, r2, r3, r6, ⟨t, r4⟩, r5⟩ := hloop
  rw [a1, hc0] at r4 r5
  rw [if_neg (Nat.ne_of_gt r1)]
  rw [postClean_volume _ (by rw [r3, a6, hl0]; exact hl)]
  rw [segments, segmentsFrom_fromSlash, ← segments]
  rw [lazybuf_string _ (by rw [r6, a4, r2, a5, r3, a6, hp0, hv0, hl0])]
  rw [r2, a5, r3, a6, hv0, hl0, r4]
  show segments Windows.IsPathSeparator (p.take (Windows.volumeNameLen p) ++ backslash :: t) = _
  rw [segments_append_sep _ backslash (by decide)]
  conv_rhs => rw [hp]
  rw [segments_append_sep _ c hc]
  congr 1
  rw [r4] at r5
  have h1 : segments Windows.IsPathSeparator ([] ++ [backslash] ++ t)
      = segments Windows.IsPathSeparator t :=
    segments_cons_sep _ backslash (by decide) t
  have h2 : segments Windows.IsPathSeparator ([] ++ [backslash]) = [] := by decide
  rw [h1, h2] at r5
  simpa using r5

/-- Every path with the extended-length prefix is absolute. -/
theorem windows_isAbs_extended (x : GoString) :
    windows.IsAbs (str "\\\\?\\" ++ x) = true := by
  have e : str "\\\\?\\" ++ x = backslash :: backslash :: (str "?\\" ++ x) := by
    rw [show str "\\\\?\\" = backslash :: backslash :: str "?\\" by decide]
    simp only [List.cons_append]
  rw [e]
  exact windows_isAbs_seps backslash backslash _ (by decide) (by decide)

/-- C19, as amended (Windows build): for every URL with scheme `file`, empty host and a
path `/X:/...` (a byte, `':'`, `'/'`, then any remainder) that has 260 bytes or more
after its leading `/`, contains no backslash and has no `.` or `..` segment,
`ToFilePath` returns the `\\?\` prefix followed by `filepath.Clean` of the path with
backslashes, and the sequence of non-empty segments of the returned path after the
prefix equals the sequence of non-empty `'/'`-separated segments of the URL path. -/
theorem windows_longPath_segments (u : URL) (d : Nat) (t : GoString)
    (hs : u.Scheme = str "file") (hh : u.Host = str "")
    (hp : u.Path = str "/" ++ d :: colon :: slash :: t)
    (hB : backslash ∉ d :: colon :: slash :: t)
    (hlen : 260 ≤ (d :: colon :: slash :: t).length)
    (hd : ∀ seg ∈ segments isSlash u.Path, seg ≠ str "." ∧ seg ≠ str "..") :
    ToFilePath windows u
        = (str "\\\\?\\" ++ Windows.Clean (Windows.FromSlash (d :: colon :: slash :: t)), none)
      ∧ segments Windows.IsPathSeparator
          (Windows.Clean (Windows.FromSlash (d :: colon :: slash :: t)))
        = segments isSlash u.Path := by
  have hF : Windows.FromSlash (d :: colon :: slash :: t)
      = (if d = slash then backslash else d) :: colon :: backslash :: Windows.FromSlash t := by
    simp [Windows.FromSlash, replaceByte]
  have hvol : Windows.volumeNameLen (Windows.FromSlash (d :: colon :: slash :: t)) = 2 := by
    rw [hF]; exact volumeNameLen_colon _ _
  have hBt : backslash ∉ t := fun h => hB (by simp [h])
  -- the segments of the URL path
  have hseg1 : segments isSlash u.Path = segments isSlash (d :: colon :: slash :: t) := by
    rw [hp, str_slash]
    exact segments_cons_sep isSlash slash (by decide) _
  have hseg2 : segments isSlash (d :: colon :: slash :: t)
      = segments isSlash [d, colon] ++ segments isSlash t :=
    segments_append_sep isSlash slash (by decide) [d, colon] t
  have hseg3 : segments Windows.IsPathSeparator (Windows.FromSlash t) = segments isSlash t := by
    rw [segments, segmentsFrom_fromSlash, segmentsFrom_isSlash _ _ hBt, segments]
  have hd' : ∀ seg ∈ segments Windows.IsPathSeparator (Windows.FromSlash t),
      seg ≠ [dot] ∧ seg ≠ [dot, dot] := by
    intro seg hseg
    rw [hseg3] at hseg
    have := hd seg (by rw [hseg1, hseg2]; exact List.mem_append_right _ hseg)
    have e1 : str "." = [dot] := by decide
    have e2 : str ".." = [dot, dot] := by decide
    rw [e1, e2] at this
    exact this
  have hclean := clean_segments (Windows.FromSlash (d :: colon :: slash :: t)) backslash
    (Windows.FromSlash t) (by rw [hvol]; decide) (by rw [hvol, hF]; rfl) (by decide) hd'
  refine ⟨?_, ?_⟩
  · have hT := windows_toFilePath_local u (d :: colon :: slash :: t) hs (Or.inl hh)
      (by rw [hp, str_slash]; rfl)
    have hV : Windows.VolumeName (Windows.FromSlash (d :: colon :: slash :: t))
        = [if d = slash then backslash else d, colon] := by
      unfold Windows.VolumeName
      rw [hvol, hF]
      simp only [List.take_succ_cons, List.take_zero]
      by_cases hds : d = slash
      · rw [if_pos hds]; decide
      · rw [if_neg hds]
        simp [Windows.FromSlash, replaceByte, hds]
    have hnb : ¬ (Windows.VolumeName (Windows.FromSlash (d :: colon :: slash :: t)) = str ""
        ∨ HasPrefix (Windows.VolumeName (Windows.FromSlash (d :: colon :: slash :: t)))
            (str "\\\\") = true) := by
      rw [hV, str_empty, str_backslash2]
      simp [HasPrefix, List.isPrefixOf]
    have hnl : ¬ (d :: colon :: slash :: t).length < 260 := by omega
    rw [hT, if_neg hnb, if_neg hnl, checkAbs_eq, if_pos (windows_isAbs_extended _)]
  · rw [hclean, segments, segmentsFrom_fromSlash, segmentsFrom_isSlash _ _ hB, ← segments,
      hseg1]

set_option maxRecDepth 1000000 in
/-- The URL `file:///C:/long/long/...` with 52 times `/long` (262 bytes after the
leading `/`) is returned as `\\?\C:\long\long\...`, with the same segments. -/
theorem windows_longPath_segments_witness :
    ToFilePath windows { Scheme := str "file", Path := str "/C:" ++ Repeat (str "/long") 52 }
        = (str "\\\\?\\C:" ++ Repeat (str "\\long") 52, none)
      ∧ segments Windows.IsPathSeparator (str "C:" ++ Repeat (str "\\long") 52)
        = segments isSlash (str "/C:" ++ Repeat (str "/long") 52) :=
  ⟨(windows_longPath_segments
      { Scheme := str "file", Path := str "/C:" ++ Repeat (str "/long") 52 } 67
      (str "long" ++ Repeat (str "/long") 51) (by decide) (by decide) (by decide)
      (by decide) (by decide) (by decide)).1.trans (by decide),
   by decide⟩

set_option maxRecDepth 1000000 in
/-- C19, as stated, fails on the Windows build. The URL path `/C:/x/../y/.` followed by
50 times `/long` (261 bytes after the leading `/`) is returned as `\\?\C:\y\long...`:
the segments `x`, `..` and `.` are gone. And the URL path `/C:/a\b` followed by 52
times `/long` is returned as `\\?\C:\a\b\long...`, where the one segment `a\b` of the
URL path has become two. -/
theorem windows_longPath_segments_counterexample :
    (ToFilePath windows
        { Scheme := str "file", Path := str "/C:/x/../y/." ++ Repeat (str "/long") 50 }
      = (str "\\\\?\\C:\\y" ++ Repeat (str "\\long") 50, none)
      ∧ segments Windows.IsPathSeparator (str "C:\\y" ++ Repeat (str "\\long") 50)
        ≠ segments isSlash (str "/C:/x/../y/." ++ Repeat (str "/long") 50)
      ∧ (segments isSlash (str "/C:/x/../y/." ++ Repeat (str "/long") 50)).take 5
        = [str "C:", str "x", str "..", str "y", str "."]
      ∧ (segments Windows.IsPathSeparator (str "C:\\y" ++ Repeat (str "\\long") 50)).take 3
        = [str "C:", str "y", str "long"])
    ∧ (ToFilePath windows
        { Scheme := str "file", Path := str "/C:/a\\b" ++ Repeat (str "/long") 52 }
      = (str "\\\\?\\C:\\a\\b" ++ Repeat (str "\\long") 52, none)
      ∧ segments Windows.IsPathSeparator (str "C:\\a\\b" ++ Repeat (str "\\long") 52)
        ≠ segments isSlash (str "/C:/a\\b" ++ Repeat (str "/long") 52)) := by
  refine ⟨⟨?_, ?_, ?_, ?_⟩, ?_, ?_⟩ <;> decide

end Fileuri
